import Mathlib

/-!
Shallow embedding of the ydn-db backend-abstraction / query-execution layer:
the WebSQL request executor (src/unnamed/part_000, `ydn.db.req.WebSql`),
the iterable query object (src/js/ydn/db/req/iterable_query.js) and the
in-memory adapter (src/js/ydn/db/adapter/simple_storage.js), together with
theorems settling the frozen claims about them.
-/

namespace YdnDb

/-! ## Query-side where clause (iterable_query.js) -/

/-- A `ydn.db.Where` condition: field name, optional lower/upper bound and
per-side open flags.  The ordered key domain is embedded as `Int`. -/
structure JsWhere where
  field : String
  lower : Option Int
  upper : Option Int
  lowerOpen : Bool
  upperOpen : Bool

/-- An application object as seen by the query-side filter: a total map from
field names to values of the ordered domain. -/
abbrev QObj := String → Int

/-- `ydn.db.req.IterableQuery.prototype.processWhereAsFilter`
(iterable_query.js lines 122-145), translated statement by statement.
The method mutates `this.filter`; here the old filter comes in as the
`filter` argument and the new filter is returned.  Note the comparison
operators are exactly the ones in the source:
`ok1 = where.lowerOpen ? value < where.lower : value <= where.lower` and
`ok2 = where.upperOpen ? value > where.upper : value >= where.upper`. -/
def processWhereAsFilter (filter : Option (QObj → Bool)) (w : JsWhere) :
    QObj → Bool :=
  let prev_filter : QObj → Bool := fun obj =>
    match filter with
    | some f => f obj
    | none => true
  fun obj =>
    let value := obj w.field
    let ok1 : Bool :=
      match w.lower with
      | none => true
      | some l => if w.lowerOpen then decide (value < l) else decide (value ≤ l)
    let ok2 : Bool :=
      match w.upper with
      | none => true
      | some u => if w.upperOpen then decide (value > u) else decide (value ≥ u)
    prev_filter obj && ok1 && ok2

/-- The filter the specification describes for a where clause (spec §4.4 and
claim C1): the object passes the old filter and its field value lies above
the lower bound (strictly when `lowerOpen`) and below the upper bound
(strictly when `upperOpen`).  This follows the spec's words and is compared
against `processWhereAsFilter`, which follows the source. -/
def whereAcceptsSpec (filter : Option (QObj → Bool)) (w : JsWhere) :
    QObj → Bool :=
  let prev_filter : QObj → Bool := fun obj =>
    match filter with
    | some f => f obj
    | none => true
  fun obj =>
    let value := obj w.field
    let ok1 : Bool :=
      match w.lower with
      | none => true
      | some l => if w.lowerOpen then decide (value > l) else decide (value ≥ l)
    let ok2 : Bool :=
      match w.upper with
      | none => true
      | some u => if w.upperOpen then decide (value < u) else decide (value ≤ u)
    prev_filter obj && ok1 && ok2

/-- A concrete where clause: `age >= 1` (closed lower bound, no upper bound). -/
def whereLowerOne : JsWhere :=
  { field := "age", lower := some 1, upper := none,
    lowerOpen := false, upperOpen := false }

/-- A concrete object whose every field reads 2. -/
def objTwo : QObj := fun _ => 2

/-! ## In-memory adapter (simple_storage.js) -/

/-- Transaction event kinds delivered to `oncompleted`
(`ydn.db.TransactionEventTypes`). -/
inductive TxEvtType where
  | complete
  | abort
deriving DecidableEq

/-- Observable steps of a call to
`ydn.db.adapter.SimpleStorage.prototype.doTransaction`, in execution order. -/
inductive TxStep where
  | invokeTrFn
  | invokeOncompleted (t : TxEvtType)
  | returnControl
deriving DecidableEq

/-- `ydn.db.adapter.SimpleStorage.prototype.doTransaction`
(simple_storage.js lines 167-170) as the ordered list of its observable
steps: the body is `trFn(this.cache_); oncompleted(COMPLETE, ...)` and then
the function returns, all synchronously. -/
def doTransactionSteps : List TxStep :=
  [TxStep.invokeTrFn, TxStep.invokeOncompleted TxEvtType.complete,
   TxStep.returnControl]

/-! ## fetch (ydn.db.req.WebSql.prototype.fetch, part_000 lines 559-668)

Rows are kept abstract: `rows : List A` is the ordered list the SQL engine
returns for the query's key range and ordering, after `parseRow` (row
decoding is modelled separately for claim C8).  The pipeline-relevant query
fields are the function-valued stages of `ydn.db.req.IterableQuery`. -/

/-- The function-valued stages of an `IterableQuery`, as read by `fetch`:
`filter`, `continued`, `map`, `reduce` and (never consulted by `fetch`)
`initial`.  `B` is the reduce accumulator type; the accumulator handed to
`reduce` is an `Option B` because the fold starts from JavaScript
`undefined`. -/
structure FetchQuery (A B : Type) where
  filter : Option (A → Bool)
  continued : Option (A → Bool)
  map : Option (A → A)
  reduce : Option (Option B → A → Nat → B)
  initial : Option (Unit → B)

/-- Result delivered by `fetch`: in collection mode a list, in reduce mode
the running accumulator, which is `none` (JavaScript `undefined`) when
`reduce` was never called. -/
inductive FetchResult (A B : Type) where
  | collection (out : List A)
  | reduced (acc : Option B)
deriving DecidableEq

/-- Application of the optional `map` stage (part_000 lines 635-637):
`value = q.map(value)` when a map function is present. -/
def applyMap (m : Option (A → A)) (row : A) : A :=
  match m with
  | some g => g row
  | none => row

/-- One emission step of the fetch row loop (part_000 lines 635-643): apply
`map` if present, then either fold into the reduce accumulator (passing the
raw loop index `i`) or append to the output array.  The two cross arms are
unreachable from `fetch`, which initialises the result in agreement with
`q.reduce` (lines 615-617); they keep the function total. -/
def fetchEmit (q : FetchQuery A B) (res : FetchResult A B) (row : A)
    (i : Nat) : FetchResult A B :=
  let value := applyMap q.map row
  match q.reduce, res with
  | some r, FetchResult.reduced acc => FetchResult.reduced (some (r acc value i))
  | some _, FetchResult.collection out => FetchResult.collection out
  | none, FetchResult.collection out => FetchResult.collection (out ++ [value])
  | none, FetchResult.reduced acc => FetchResult.reduced acc

/-- Evaluation of `!goog.isFunction(q.continued) || q.continued(value)`
(part_000 line 631): absent predicate counts as true. -/
def rowToContinue (q : FetchQuery A B) (row : A) : Bool :=
  match q.continued with
  | some c => c row
  | none => true

/-- Evaluation of `!goog.isFunction(q.filter) || q.filter(value)`
(part_000 line 632): absent filter counts as true. -/
def rowPass (q : FetchQuery A B) (row : A) : Bool :=
  match q.filter with
  | some f => f row
  | none => true

/-- The loop-continuation test of part_000 line 647:
`to_continue && (!goog.isDef(end) || (idx+1) < end)`. -/
def keepGoing (endO : Option Int) (to_continue : Bool) (idx' : Int) : Bool :=
  to_continue &&
    (match endO with
     | none => true
     | some e => decide (idx' + 1 < e))

/-- The `idx` counter after one row (part_000 line 633): incremented exactly
when the row passes the filter. -/
def nextIdx (q : FetchQuery A B) (row : A) (idx : Int) : Int :=
  if rowPass q row then idx + 1 else idx

/-- The result after one row (part_000 lines 632-645): a filter-passing row
whose updated `idx` has reached `start` is emitted, all other rows leave the
result unchanged. -/
def nextRes (q : FetchQuery A B) (startN : Int) (row : A) (i : Nat)
    (idx : Int) (res : FetchResult A B) : FetchResult A B :=
  if rowPass q row then
    (if nextIdx q row idx ≥ startN then fetchEmit q res row i else res)
  else res

/-- The row loop of the `fetch` success callback (part_000 lines 618-650).
`i` is the raw row index, `idx` the count of filter-passing rows minus one
(initialised to `-1` as in the source), `startN` and `endO` the mutated
`start`/`end` values.  Per row: `to_continue` is evaluated first and
independently of the filter; a filter-passing row increments `idx` and is
emitted when `idx >= start`; the loop breaks unless
`to_continue && (end == undefined || idx + 1 < end)`. -/
def fetchLoop (q : FetchQuery A B) (endO : Option Int) (startN : Int) :
    List A → Nat → Int → FetchResult A B → FetchResult A B
  | [], _, _, res => res
  | row :: rest, i, idx, res =>
    if keepGoing endO (rowToContinue q row) (nextIdx q row idx) then
      fetchLoop q endO startN rest (i + 1) (nextIdx q row idx)
        (nextRes q startN row i idx res)
    else nextRes q startN row i idx res

/-- `ydn.db.req.WebSql.prototype.fetch` (part_000 lines 559-668) given the
ordered table rows the key-range SQL would return.  `start := skip || 0`,
`end := start + max` when `max` is defined; when the query has neither a
filter nor a continuation predicate, `max`/`skip` are pushed down to native
`LIMIT (end - start)` / `OFFSET start` (modelled by `take`/`drop` on the
row list, after which the engine hands the callback the offset rows and
`start`/`end` are reset); the result starts as `undefined` in reduce mode
and as `[]` otherwise, then the row loop runs from `i = 0`, `idx = -1`. -/
def fetch (q : FetchQuery A B) (max skip : Option Nat) (tableRows : List A) :
    FetchResult A B :=
  let start : Nat := skip.getD 0
  let endO : Option Nat := max.map (fun m => start + m)
  let pushdown : Bool := q.filter.isNone && q.continued.isNone
  let rows : List A := if pushdown then
      (match endO with
       | some e => fun l => List.take (e - start) l
       | none => id) (tableRows.drop start)
    else tableRows
  let start' : Int := if pushdown then 0 else (start : Int)
  let endO' : Option Int := if pushdown then none
    else match endO with
      | some e => some ((e : Nat) : Int)
      | none => none
  let res0 : FetchResult A B := if q.reduce.isSome then
      FetchResult.reduced none
    else FetchResult.collection []
  fetchLoop q endO' start' rows 0 (-1) res0

/-! ## Schema model (external collaborator, spec section 6)

`DatabaseSchema.getStore(name)` returns the store schema or `undefined`;
stores carry a key path and index declarations with optional scalar types. -/

/-- `ydn.db.DataType` scalar type tags relevant to `parseRow`. -/
inductive DataType where
  | integer
  | float
  | text
deriving DecidableEq

/-- An index declaration: name and optional declared scalar type. -/
structure IndexSchema where
  name : String
  type : Option DataType
deriving DecidableEq

/-- A store declaration: name, key path and indexes. -/
structure StoreSchema where
  name : String
  keyPath : String
  indexes : List IndexSchema
deriving DecidableEq

/-- The database schema: its list of stores. -/
abbrev DatabaseSchema := List StoreSchema

/-- `this.schema.getStore(store_name)`: the store by that name, or `none`
(JavaScript `undefined`) when the schema has no such store. -/
def getStore (schema : DatabaseSchema) (name : String) : Option StoreSchema :=
  schema.find? (fun s => s.name == name)

/-! ## Row decoding (ydn.db.req.WebSql.prototype.parseRow, part_000 lines
102-124)

JavaScript values relevant to row decoding are embedded as `JsVal`: strings,
integer-valued numbers, `NaN` and `undefined`; application objects are
association lists of fields.  JSON (de)serialization is external, so a
native row is modelled as its already-parsed blob object plus its column
cells. -/

/-- A JavaScript value in a row cell or an object field.  The numeric
domain is restricted to integers; this suffices for the declared-type
coercions the decoder performs. -/
inductive JsVal where
  | str (s : String)
  | num (n : Int)
  | nan
  | undef
deriving DecidableEq

/-- An application object: fields in insertion order. -/
abbrev Obj := List (String × JsVal)

/-- Property read `o[k]`: the field's value, or `undefined` when absent. -/
def getField (o : Obj) (k : String) : JsVal :=
  match o.find? (fun p => p.1 == k) with
  | some p => p.2
  | none => JsVal.undef

/-- Property write `o[k] = v`: replaces an existing field in place, appends
a new field otherwise. -/
def setField (o : Obj) (k : String) (v : JsVal) : Obj :=
  if o.any (fun p => p.1 == k) then
    o.map (fun p => if p.1 == k then (k, v) else p)
  else o ++ [(k, v)]

/-- A decimal digit character. -/
def chIsDigit (c : Char) : Bool :=
  decide (48 ≤ c.toNat) && decide (c.toNat ≤ 57)

/-- The value of a non-empty all-digit character run, `none` otherwise. -/
def decDigits (cs : List Char) : Option Nat :=
  if cs.isEmpty then none
  else if cs.all chIsDigit then
    some (cs.foldl (fun a c => a * 10 + (c.toNat - 48)) 0)
  else none

/-- Decimal integer parsing of a string, with optional leading minus. -/
def strToIntJs (s : String) : Option Int :=
  match s.data with
  | [] => none
  | c :: cs =>
    if c = '-' then (decDigits cs).map (fun n => -(n : Int))
    else (decDigits (c :: cs)).map (fun n => (n : Int))

/-- JavaScript `parseInt(x, 10)` on this value domain: numbers pass through,
integer-literal strings parse, everything else is `NaN`. -/
def parseIntJs : JsVal → JsVal
  | JsVal.str s =>
    match strToIntJs s with
    | some n => JsVal.num n
    | none => JsVal.nan
  | JsVal.num n => JsVal.num n
  | _ => JsVal.nan

/-- JavaScript `parseFloat(x)`; on this integer-valued domain it coincides
with `parseIntJs`. -/
def parseFloatJs : JsVal → JsVal
  | JsVal.str s =>
    match strToIntJs s with
    | some n => JsVal.num n
    | none => JsVal.nan
  | JsVal.num n => JsVal.num n
  | _ => JsVal.nan

/-- `ydn.db.DEFAULT_BLOB_COLUMN`, the column holding the serialized
object. -/
def DEFAULT_BLOB_COLUMN : String := "_default_"

/-- A native SQL result row: the blob column after `ydn.json.parse`
(JSON parsing is an external collaborator) and the remaining column
cells. -/
structure NativeRow where
  blob : Obj
  cells : Obj

/-- Column read `row[name]`. -/
def getCell (row : NativeRow) (k : String) : JsVal :=
  getField row.cells k

/-- The declared-type coercion of part_000 lines 116-120: INTEGER fields go
through `parseInt(x, 10)`, FLOAT fields through `parseFloat(x)`, any other
declared (or undeclared) type passes the cell value through unchanged. -/
def coerceByType (t : Option DataType) (x : JsVal) : JsVal :=
  if t = some DataType.integer then parseIntJs x
  else if t = some DataType.float then parseFloatJs x
  else x

/-- One iteration of the index loop of `parseRow` (part_000 lines 107-122):
skip the blob column; skip a column absent from the row (`undefined`);
otherwise write the coerced cell value into the object. -/
def parseRowStep (row : NativeRow) (value : Obj) (index : IndexSchema) :
    Obj :=
  if index.name == DEFAULT_BLOB_COLUMN then value
  else
    match getCell row index.name with
    | JsVal.undef => value
    | x => setField value index.name (coerceByType index.type x)

/-- `ydn.db.req.WebSql.prototype.parseRow` (part_000 lines 102-124): parse
the blob column, reinstate the primary key under the declared key path
(`table.setKey(value, key)`, modelled per its spec as a write at the key
path), then run the index loop. -/
def parseRow (table : StoreSchema) (row : NativeRow) : Obj :=
  let value := row.blob
  let key := getCell row table.keyPath
  let value := setField value table.keyPath key
  table.indexes.foldl (parseRowStep row) value

/-! ## Request prologues: behaviour on a store name absent from the schema

Each WebSql executor operation begins by resolving the store name; what
happens on a miss differs per operation and is modelled from the opening
lines of each method in part_000. -/

/-- How an executor operation leaves its synchronous prologue. -/
inductive PrologueOutcome where
  | threwNotFoundError
  | threwTypeError
  | threwGenericError
  | reachedNativeCall
deriving DecidableEq

/-- `putObject` (part_000 lines 145-150): `if (!table) throw new
ydn.db.NotFoundError(store_name)` before any `executeSql`. -/
def putObjectPrologue (schema : DatabaseSchema) (name : String) :
    PrologueOutcome :=
  match getStore schema name with
  | none => PrologueOutcome.threwNotFoundError
  | some _ => PrologueOutcome.reachedNativeCall

/-- `putObjects` (part_000 lines 199-204): same guard as `putObject`. -/
def putObjectsPrologue (schema : DatabaseSchema) (name : String) :
    PrologueOutcome :=
  match getStore schema name with
  | none => PrologueOutcome.threwNotFoundError
  | some _ => PrologueOutcome.reachedNativeCall

/-- `getById` (part_000 lines 277-282): same guard. -/
def getByIdPrologue (schema : DatabaseSchema) (name : String) :
    PrologueOutcome :=
  match getStore schema name with
  | none => PrologueOutcome.threwNotFoundError
  | some _ => PrologueOutcome.reachedNativeCall

/-- `getByIds` (part_000 lines 329-338): same guard. -/
def getByIdsPrologue (schema : DatabaseSchema) (name : String) :
    PrologueOutcome :=
  match getStore schema name with
  | none => PrologueOutcome.threwNotFoundError
  | some _ => PrologueOutcome.reachedNativeCall

/-- `clearById` (part_000 lines 777-783): same guard. -/
def clearByIdPrologue (schema : DatabaseSchema) (name : String) :
    PrologueOutcome :=
  match getStore schema name with
  | none => PrologueOutcome.threwNotFoundError
  | some _ => PrologueOutcome.reachedNativeCall

/-- `removeById` (part_000 lines 737-744): no guard — the method immediately
evaluates `store.getSQLKeyColumnName()`, which on an `undefined` store is a
JavaScript TypeError, not a `NotFoundError`. -/
def removeByIdPrologue (schema : DatabaseSchema) (name : String) :
    PrologueOutcome :=
  match getStore schema name with
  | none => PrologueOutcome.threwTypeError
  | some _ => PrologueOutcome.reachedNativeCall

/-- `fetch` (part_000 lines 559-569): no guard — the method immediately
evaluates `store.getQuotedName()`, a TypeError on an `undefined` store. -/
def fetchPrologue (schema : DatabaseSchema) (name : String) :
    PrologueOutcome :=
  match getStore schema name with
  | none => PrologueOutcome.threwTypeError
  | some _ => PrologueOutcome.reachedNativeCall

/-- `count` (part_000 lines 823-854): never consults the schema — it issues
the native `SELECT COUNT(*)` for any table name. -/
def countPrologue (schema : DatabaseSchema) (name : String) :
    PrologueOutcome :=
  PrologueOutcome.reachedNativeCall

/-- `removeByStore` with a table argument (part_000 lines 865-875): a missing
store raises a plain `Error('Table ... not found.')`, not a
`NotFoundError`. -/
def removeByStorePrologue (schema : DatabaseSchema) (name : String) :
    PrologueOutcome :=
  match getStore schema name with
  | none => PrologueOutcome.threwGenericError
  | some _ => PrologueOutcome.reachedNativeCall

/-! ## Batch request pipelining (putObjects / getByIds / getByKeys)

The three batch operations share one shape (part_000 lines 199-267,
329-403, 481-550): a window of native requests is issued up front; each
success callback increments `result_count`, stores its value at the fixed
input position `i`, fires `df.callback(results)` when the count reaches the
input length and otherwise issues item `i + WINDOW`; each error callback
fires `df.errback(error)` and issues nothing.  The model records every
`df.callback`/`df.errback` in `events` and every issued item in `issued`,
and is driven by the list of native completions `(item, outcome)` in
arrival order. -/

/-- `ydn.db.req.WebSql.REQ_PER_TX` (part_000 line 64). -/
def REQ_PER_TX : Nat := 10

/-- `ydn.db.req.WebSql.RW_REQ_PER_TX` (part_000 line 75). -/
def RW_REQ_PER_TX : Nat := 2

/-- A resolution delivered on the operation's deferred: `df.callback(arr)`
(the positional result array) or `df.errback(e)`. -/
inductive BatchEvent (V E : Type) where
  | success (arr : List (Option V))
  | failure (e : E)
deriving DecidableEq

/-- The mutable outer-scope state of one batch operation: completion
counter, positional result array, deferred resolutions fired so far and
the items issued to the native engine so far. -/
structure BatchState (V E : Type) where
  count : Nat
  results : List (Option V)
  events : List (BatchEvent V E)
  issued : List Nat
deriving DecidableEq

/-- The state right after the operation body ran (part_000 lines 259-267,
395-403, 542-550): with `n = 0` the deferred resolves immediately with `[]`
and nothing is issued; otherwise items `0 .. min W n - 1` are issued. -/
def initBatch (V E : Type) (n W : Nat) : BatchState V E :=
  { count := 0,
    results := List.replicate n none,
    events := if n = 0 then [BatchEvent.success []] else [],
    issued := List.range (min W n) }

/-- One native completion `(i, outcome)` processed by the shared
success/error callbacks: on success `result_count++`, `results[i] := v`,
resolve when the count reaches `n`, else issue `i + W` when `i + W < n`
(part_000 lines 231-242, 353-371); on error fire `df.errback` and issue
nothing (lines 248-253, 377-384). -/
def completeOne (n W : Nat) (s : BatchState V E) (c : Nat × Except E V) :
    BatchState V E :=
  match c.2 with
  | Except.ok v =>
    let count := s.count + 1
    let results := s.results.set c.1 (some v)
    if count = n then
      { count := count, results := results,
        events := s.events ++ [BatchEvent.success results],
        issued := s.issued }
    else
      { count := count, results := results, events := s.events,
        issued := if c.1 + W < n then s.issued ++ [c.1 + W] else s.issued }
  | Except.error e =>
    { s with events := s.events ++ [BatchEvent.failure e] }

/-- Processing a list of native completions in arrival order. -/
def runBatch (n W : Nat) (s : BatchState V E)
    (tr : List (Nat × Except E V)) : BatchState V E :=
  tr.foldl (completeOne n W) s

/-- The first row of the table whose key column equals `k`, as the SQL
`SELECT * FROM t WHERE key = ?` of `getByIds` returns it:  the object when
a row matches, `none` (row count 0, `objects[i] = undefined`) otherwise. -/
def dbFind (db : List (Int × V)) (k : Int) : Option V :=
  (db.find? (fun p => p.1 == k)).map (fun p => p.2)

/-- The native outcome of `getByIds` item `i`: always a successful SQL
completion carrying the looked-up row (or none). -/
def getByIdsOutcome (E : Type) (db : List (Int × V)) (ids : List Int)
    (i : Nat) : Except E (Option V) :=
  Except.ok (dbFind db (ids.getD i 0))

/-- `getByIds` after its body: completions processed with window
`REQ_PER_TX` over `ids.length` items. -/
def getByIdsRun (E : Type) (db : List (Int × V)) (ids : List Int)
    (tr : List (Nat × Except E (Option V))) : BatchState (Option V) E :=
  runBatch ids.length REQ_PER_TX (initBatch (Option V) E ids.length REQ_PER_TX)
    tr

/-- `putObjects` after its body: completions processed with window
`RW_REQ_PER_TX` over `n` items; item `i` resolves with its key
(`out.key` when defined, else the engine's `insertId`), abstracted as
`keyOf i`. -/
def putObjectsRun (K E : Type) (n : Nat)
    (tr : List (Nat × Except E K)) : BatchState K E :=
  runBatch n RW_REQ_PER_TX (initBatch K E n RW_REQ_PER_TX) tr

/-- `putObjects` body entry (part_000 lines 199-204, 259-267): store guard
first, then the empty-input shortcut / initial window. -/
def putObjectsStart (V E : Type) (schema : DatabaseSchema)
    (store_name : String) (nObjects : Nat) : Option (BatchState V E) :=
  match getStore schema store_name with
  | none => none
  | some _ => some (initBatch V E nObjects RW_REQ_PER_TX)

/-- `getByIds` body entry (part_000 lines 329-338, 395-403). -/
def getByIdsStart (V E : Type) (schema : DatabaseSchema)
    (table_name : String) (nIds : Nat) : Option (BatchState V E) :=
  match getStore schema table_name with
  | none => none
  | some _ => some (initBatch V E nIds REQ_PER_TX)

/-- `getByKeys` body entry (part_000 lines 481-550): no store guard at the
top (keys are resolved per item), empty-input shortcut / initial window. -/
def getByKeysStart (V E : Type) (nKeys : Nat) : BatchState V E :=
  initBatch V E nKeys REQ_PER_TX

/-- Whether a deferred resolution is a success (`df.callback`). -/
def isSuccessEv : BatchEvent V E → Bool
  | BatchEvent.success _ => true
  | BatchEvent.failure _ => false

/-- The error carried by a failure resolution, if any. -/
def failurePayload : BatchEvent V E → Option E
  | BatchEvent.failure e => some e
  | BatchEvent.success _ => none

/-- The error of a native outcome, if any. -/
def errOf : Except E V → Option E
  | Except.error e => some e
  | Except.ok _ => none

/-- Number of successfully completed items among `done`. -/
def cntOk (out : Nat → Except E V) (done : List Nat) : Nat :=
  (done.filter (fun i => (out i).toOption.isSome)).length

/-- The result array after the items in `done` have completed: position `j`
holds the value of item `j`'s successful completion, `none` otherwise. -/
def okMask (out : Nat → Except E V) (done : List Nat) (n : Nat) :
    List (Option V) :=
  (List.range n).map (fun j => if j ∈ done then (out j).toOption else none)

/-- Invariant tying the deferred resolutions fired so far to the set `done`
of processed completions: exactly one success has fired iff the ok-count
reached `n`; any success carries the complete positional array of an
all-successful batch; the errors fired are exactly the errors of the
processed completions, in arrival order. -/
@[reducible]
def batchEventsOk (n : Nat) (out : Nat → Except E V) (done : List Nat)
    (ev : List (BatchEvent V E)) : Prop :=
  ev.countP isSuccessEv = (if cntOk out done = n then 1 else 0) ∧
  (∀ arr, BatchEvent.success arr ∈ ev →
    (∀ j, j < n → (out j).toOption.isSome = true) ∧
    arr = (List.range n).map (fun j => (out j).toOption)) ∧
  ev.filterMap failurePayload = done.filterMap (fun i => errOf (out i))

/-! ## Concrete instances used by witnesses and counterexamples -/

/-- A query whose filter keeps odd values and whose continuation predicate
stops the scan at the first value that is not below 4. -/
def qOddBelow4 : FetchQuery Nat Nat :=
  { filter := some (fun v => decide (v % 2 = 1)),
    continued := some (fun v => decide (v < 4)),
    map := none, reduce := none, initial := none }

/-- The continuation predicate of `qOddBelow4`. -/
def contBelow4 : Nat → Bool := fun v => decide (v < 4)

/-- The query with a trivial filter attached, as in the spec's equivalence
scenario `filter = () => true`. -/
def trueFilter (q : FetchQuery A B) : FetchQuery A B :=
  { q with filter := some (fun _ => true) }

/-- A bare query (no filter, no continuation, no map, no reduce). -/
def qPlainColl : FetchQuery Nat Nat :=
  { filter := none, continued := none, map := none, reduce := none,
    initial := none }

/-- A bare query in reduce mode whose reduce function returns the index
argument it receives. -/
def qReduceIdx : FetchQuery Nat Nat :=
  { filter := none, continued := none, map := none,
    reduce := some (fun _ _ i => i), initial := none }

/-- A reduce function that mixes the accumulator, the value and the index. -/
def reduceDemo : Option Nat → Nat → Nat → Nat :=
  fun a v i => a.getD 0 + v + 10 * i

/-- A filter keeping odd values. -/
def filtOdd : Nat → Bool := fun v => decide (v % 2 = 1)

/-- A reduce-mode query with an odd-values filter and `reduceDemo`. -/
def qReduceDemo : FetchQuery Nat Nat :=
  { filter := some filtOdd, continued := none, map := none,
    reduce := some reduceDemo, initial := none }

/-- Native outcomes where item 1 fails and the rest succeed with their own
index. -/
def outDemo : Nat → Except String Nat :=
  fun i => if i = 1 then Except.error "boom" else Except.ok i

/-- The store of the spec's scenario: `users`, key path `id`, integer index
`age`. -/
def usersStore : StoreSchema :=
  { name := "users", keyPath := "id",
    indexes := [{ name := "age", type := some DataType.integer }] }

/-- A one-store schema holding `usersStore`. -/
def schemaUsers : DatabaseSchema := [usersStore]

/-- The native row produced by putting the object with `id` 1 and `age`
`"30"` into `usersStore`: the blob holds the object as stored, the cells
hold the key column and the `age` index column. -/
def rowDemo : NativeRow :=
  { blob := [("id", JsVal.num 1), ("age", JsVal.str "30")],
    cells := [("id", JsVal.num 1), ("age", JsVal.str "30")] }

/-! ## Theorems -/

/-- C1: `processWhereAsFilter` is claimed to accept an object iff the old
filter holds and the object's field lies above the lower bound and below the
upper bound.  The code has the comparisons reversed: for the where clause
`age >= 1` (closed lower bound, no upper bound) and an object with
`age = 2`, the compiled filter built by the source rejects the object
(`2 <= 1` is false) although the specified range condition accepts it. -/
theorem c1_where_filter_comparisons_reversed :
    processWhereAsFilter none whereLowerOne objTwo = false ∧
    whereAcceptsSpec none whereLowerOne objTwo = true := by
  exact ⟨rfl, rfl⟩

/-- Helper for C2: if the continuation predicate is false at row `k`, the
row loop gives the same result on the whole row list as on its first
`k + 1` rows — rows after `k` never contribute, whatever the filter says. -/
theorem fetchLoop_take_of_continued_false {A B : Type} (q : FetchQuery A B)
    (c : A → Bool) (hc : q.continued = some c) (endO : Option Int)
    (startN : Int) :
    ∀ (rows : List A) (k : Nat) (hk : k < rows.length) (i : Nat) (idx : Int)
      (res : FetchResult A B), c (rows.get ⟨k, hk⟩) = false →
      fetchLoop q endO startN rows i idx res =
        fetchLoop q endO startN (rows.take (k + 1)) i idx res
  | [], k, hk, _, _, _, _ => absurd hk (by simp)
  | row :: rest, 0, _, i, idx, res, hfalse => by
    simp only [List.get] at hfalse
    simp [fetchLoop, rowToContinue, hc, hfalse, keepGoing]
  | row :: rest, k + 1, hk, i, idx, res, hfalse => by
    simp only [List.get] at hfalse
    have ih := fetchLoop_take_of_continued_false q c hc endO startN rest k
      (Nat.lt_of_succ_lt_succ hk) (i + 1)
    by_cases hkg :
      keepGoing endO (rowToContinue q row) (nextIdx q row idx) = true
    · simp only [List.take_succ_cons, fetchLoop, hkg, if_true]
      exact ih _ _ hfalse
    · simp [fetchLoop, hkg]

/-- C2: with a continuation predicate that returns false at row `k` (in scan
order), `fetch` returns the same result as on the scan truncated right
after row `k`: no later row contributes to the output, independently of the
filter's verdict on row `k`. -/
theorem c2_continued_halts_scan {A B : Type} (q : FetchQuery A B)
    (c : A → Bool) (max skip : Option Nat) (rows : List A) (k : Nat)
    (hc : q.continued = some c) (hk : k < rows.length)
    (hfalse : c (rows.get ⟨k, hk⟩) = false) :
    fetch q max skip rows = fetch q max skip (rows.take (k + 1)) := by
  have hpd : (q.filter.isNone && q.continued.isNone) = false := by
    simp [hc]
  simp only [fetch, hpd, Bool.false_eq_true, if_neg, not_false_iff]
  exact fetchLoop_take_of_continued_false q c hc _ _ rows k hk 0 (-1) _ hfalse

/-- C2 witness: rows `[1,2,3,4,5,6,7]`, filter keeps odd values, continuation
predicate is false at row index 3 (value 4) — which the filter also rejects
— and the fetch result equals the result on the first four rows. -/
theorem c2_witness :
    qOddBelow4.continued = some contBelow4 ∧
    (3 : Nat) < ([1, 2, 3, 4, 5, 6, 7] : List Nat).length ∧
    contBelow4 (([1, 2, 3, 4, 5, 6, 7] : List Nat).get ⟨3, by decide⟩) = false ∧
    fetch qOddBelow4 none none [1, 2, 3, 4, 5, 6, 7] =
      fetch qOddBelow4 none none (([1, 2, 3, 4, 5, 6, 7] : List Nat).take 4) :=
  ⟨rfl, by decide, by decide,
    c2_continued_halts_scan qOddBelow4 contBelow4 none none _ 3 rfl
      (by decide) (by decide)⟩

/-- C3 counterexample: in `SimpleStorage.doTransaction` the `oncompleted`
callback is invoked at step 1, strictly before control returns to the
caller at step 2 — completion is delivered synchronously, refuting the
claim that `doTransaction` never invokes `oncompleted` before returning. -/
theorem c3_oncompleted_before_return :
    doTransactionSteps[1]? =
      some (TxStep.invokeOncompleted TxEvtType.complete) ∧
    doTransactionSteps[2]? = some TxStep.returnControl := by
  decide

/-- C3 amended: `SimpleStorage.doTransaction` invokes `trFn`, then invokes
`oncompleted` exactly once with the COMPLETE event, and only then returns —
all synchronously, so the in-memory backend's completion is observable
before `doTransaction` returns. -/
theorem c3_amended_synchronous_completion :
    doTransactionSteps.countP
        (fun s => match s with
          | TxStep.invokeOncompleted _ => true
          | _ => false) = 1 ∧
    doTransactionSteps[0]? = some TxStep.invokeTrFn ∧
    doTransactionSteps[1]? =
      some (TxStep.invokeOncompleted TxEvtType.complete) ∧
    doTransactionSteps[2]? = some TxStep.returnControl ∧
    doTransactionSteps.length = 3 := by
  decide

/-- Helper: on the pushdown path (no filter, no continuation predicate, no
reduce), the row loop with `start = 0` and no `end` collects every row in
order, mapped. -/
theorem fetchLoop_collect_all {A B : Type} (q : FetchQuery A B)
    (hf : q.filter = none) (hcont : q.continued = none)
    (hr : q.reduce = none) :
    ∀ (rows : List A) (i : Nat) (idx : Int) (acc : List A), -1 ≤ idx →
      fetchLoop q none 0 rows i idx (FetchResult.collection acc) =
        FetchResult.collection (acc ++ rows.map (applyMap q.map))
  | [], _, _, acc, _ => by simp [fetchLoop]
  | row :: rest, i, idx, acc, hidx => by
    have hpass : rowPass q row = true := by simp [rowPass, hf]
    have hcontT : rowToContinue q row = true := by simp [rowToContinue, hcont]
    have hkg : keepGoing none (rowToContinue q row) (nextIdx q row idx) =
        true := by simp [keepGoing, hcontT]
    have hnext : nextIdx q row idx = idx + 1 := by simp [nextIdx, hpass]
    have hge : nextIdx q row idx ≥ (0 : Int) := by rw [hnext]; omega
    have hemit : nextRes q 0 row i idx (FetchResult.collection acc) =
        FetchResult.collection (acc ++ [applyMap q.map row]) := by
      rw [nextRes, if_pos hpass, if_pos hge]
      simp [fetchEmit, hr]
    rw [fetchLoop, if_pos hkg, hnext, hemit,
      fetchLoop_collect_all q hf hcont hr rest (i + 1) (idx + 1)
        (acc ++ [applyMap q.map row]) (by omega)]
    simp

/-- Helper: on the post-filter path with a filter that never rejects, no
continuation predicate, no reduce and no `end`, the row loop starting with
`idx = k - 1` collects the rows from position `start - k` on, mapped. -/
theorem fetchLoop_truefilt_noend {A B : Type} (q : FetchQuery A B)
    (f : A → Bool) (hf : q.filter = some f) (htrue : ∀ x, f x = true)
    (hcont : q.continued = none) (hr : q.reduce = none) (s : Nat) :
    ∀ (rows : List A) (i k : Nat) (acc : List A),
      fetchLoop q none (s : Int) rows i ((k : Int) - 1)
          (FetchResult.collection acc) =
        FetchResult.collection
          (acc ++ (rows.drop (s - k)).map (applyMap q.map))
  | [], _, _, acc => by simp [fetchLoop]
  | row :: rest, i, k, acc => by
    have hpass : rowPass q row = true := by simp [rowPass, hf, htrue]
    have hcontT : rowToContinue q row = true := by simp [rowToContinue, hcont]
    have hnext : nextIdx q row ((k : Int) - 1) = (k : Int) := by
      rw [nextIdx, if_pos hpass]; omega
    have hkg : keepGoing none (rowToContinue q row)
        (nextIdx q row ((k : Int) - 1)) = true := by
      simp [keepGoing, hcontT]
    have hcast : ((k + 1 : Nat) : Int) - 1 = (k : Int) := by push_cast; ring
    rw [fetchLoop, if_pos hkg, hnext]
    by_cases hsk : s ≤ k
    · have hge : nextIdx q row ((k : Int) - 1) ≥ (s : Int) := by
        rw [hnext]; omega
      have hemit : nextRes q (s : Int) row i ((k : Int) - 1)
          (FetchResult.collection acc) =
          FetchResult.collection (acc ++ [applyMap q.map row]) := by
        rw [nextRes, if_pos hpass, if_pos hge]
        simp [fetchEmit, hr]
      rw [hemit, show (k : Int) = ((k + 1 : Nat) : Int) - 1 from by push_cast; ring,
        fetchLoop_truefilt_noend q f hf htrue hcont hr s rest (i + 1) (k + 1)
          (acc ++ [applyMap q.map row])]
      have hd1 : s - k = 0 := by omega
      have hd2 : s - (k + 1) = 0 := by omega
      simp [hd1, hd2]
    · have hlt : ¬ nextIdx q row ((k : Int) - 1) ≥ (s : Int) := by
        rw [hnext]; omega
      have hemit : nextRes q (s : Int) row i ((k : Int) - 1)
          (FetchResult.collection acc) = FetchResult.collection acc := by
        rw [nextRes, if_pos hpass, if_neg hlt]
      rw [hemit, show (k : Int) = ((k + 1 : Nat) : Int) - 1 from by push_cast; ring,
        fetchLoop_truefilt_noend q f hf htrue hcont hr s rest (i + 1) (k + 1)
          acc]
      have hd : s - k = (s - (k + 1)) + 1 := by omega
      rw [hd, List.drop_succ_cons]

/-- Helper: on the post-filter path with a filter that never rejects, no
continuation predicate, no reduce and `end = e > k`, the row loop starting
with `idx = k - 1` collects the rows of positions `start - k` up to
`e - k - 1`, mapped. -/
theorem fetchLoop_truefilt_end {A B : Type} (q : FetchQuery A B)
    (f : A → Bool) (hf : q.filter = some f) (htrue : ∀ x, f x = true)
    (hcont : q.continued = none) (hr : q.reduce = none) (s e : Nat) :
    ∀ (rows : List A) (i k : Nat) (acc : List A), k < e →
      fetchLoop q (some (e : Int)) (s : Int) rows i ((k : Int) - 1)
          (FetchResult.collection acc) =
        FetchResult.collection
          (acc ++ ((rows.take (e - k)).drop (s - k)).map (applyMap q.map))
  | [], _, _, acc, _ => by simp [fetchLoop]
  | row :: rest, i, k, acc, hke => by
    have hpass : rowPass q row = true := by simp [rowPass, hf, htrue]
    have hcontT : rowToContinue q row = true := by simp [rowToContinue, hcont]
    have hnext : nextIdx q row ((k : Int) - 1) = (k : Int) := by
      rw [nextIdx, if_pos hpass]; omega
    have htk : e - k = (e - (k + 1)) + 1 := by omega
    rw [fetchLoop, hnext, htk, List.take_succ_cons]
    by_cases hstop : k + 1 < e
    · have hkg : keepGoing (some (e : Int)) (rowToContinue q row) (k : Int) =
          true := by
        simp only [keepGoing, hcontT, Bool.true_and, decide_eq_true_eq]
        omega
      rw [if_pos hkg]
      by_cases hsk : s ≤ k
      · have hge : nextIdx q row ((k : Int) - 1) ≥ (s : Int) := by
          rw [hnext]; omega
        have hemit : nextRes q (s : Int) row i ((k : Int) - 1)
            (FetchResult.collection acc) =
            FetchResult.collection (acc ++ [applyMap q.map row]) := by
          rw [nextRes, if_pos hpass, if_pos hge]
          simp [fetchEmit, hr]
        rw [hemit, show (k : Int) = ((k + 1 : Nat) : Int) - 1 from by
            push_cast; ring,
          fetchLoop_truefilt_end q f hf htrue hcont hr s e rest (i + 1)
            (k + 1) (acc ++ [applyMap q.map row]) hstop]
        have hd1 : s - k = 0 := by omega
        have hd2 : s - (k + 1) = 0 := by omega
        simp [hd1, hd2]
      · have hlt : ¬ nextIdx q row ((k : Int) - 1) ≥ (s : Int) := by
          rw [hnext]; omega
        have hemit : nextRes q (s : Int) row i ((k : Int) - 1)
            (FetchResult.collection acc) = FetchResult.collection acc := by
          rw [nextRes, if_pos hpass, if_neg hlt]
        rw [hemit, show (k : Int) = ((k + 1 : Nat) : Int) - 1 from by
            push_cast; ring,
          fetchLoop_truefilt_end q f hf htrue hcont hr s e rest (i + 1)
            (k + 1) acc hstop]
        have hd : s - k = (s - (k + 1)) + 1 := by omega
        rw [hd, List.drop_succ_cons]
    · have he : e = k + 1 := by omega
      have hkg : keepGoing (some (e : Int)) (rowToContinue q row) (k : Int) =
          false := by
        simp only [keepGoing, hcontT, Bool.true_and, decide_eq_false_iff_not]
        omega
      rw [if_neg (by rw [hkg]; exact Bool.false_ne_true)]
      have htk0 : e - (k + 1) = 0 := by omega
      by_cases hsk : s ≤ k
      · have hge : nextIdx q row ((k : Int) - 1) ≥ (s : Int) := by
          rw [hnext]; omega
        rw [nextRes, if_pos hpass, if_pos hge]
        have hd1 : s - k = 0 := by omega
        simp [fetchEmit, hr, htk0, hd1]
      · have hlt : ¬ nextIdx q row ((k : Int) - 1) ≥ (s : Int) := by
          rw [hnext]; omega
        rw [nextRes, if_pos hpass, if_neg hlt]
        have hd : s - k = (s - (k + 1)) + 1 := by omega
        rw [htk0, hd]
        simp

/-- C5 counterexample: the pushdown path and the `filter = () => true`
post-filter path disagree.  First input: a reduce-mode query whose reduce
function returns its index argument, rows `[10, 20]`, `skip = 1` — pushdown
hands the reducer raw index 0, the post-filter path raw index 1.  Second
input: a plain collection query with `max = 0` — pushdown returns no rows
(`LIMIT 0`) while the post-filter path emits one row before testing the
bound. -/
theorem c5_pushdown_neq_postfilter :
    fetch qReduceIdx none (some 1) [10, 20] ≠
      fetch (trueFilter qReduceIdx) none (some 1) [10, 20] ∧
    fetch qPlainColl (some 0) none [5] ≠
      fetch (trueFilter qPlainColl) (some 0) none [5] := by
  constructor <;> decide

/-- Helper: the collection-mode case of the pushdown/post-filter agreement —
no filter, no continuation predicate, no reduce function, excluding the
corner `max = 0` with `skip` absent or 0. -/
theorem fetch_pushdown_eq_postfilter_coll {A B : Type} (q : FetchQuery A B)
    (rows : List A) (max skip : Option Nat)
    (hf : q.filter = none) (hcont : q.continued = none)
    (hr : q.reduce = none) (hm : ¬(max = some 0 ∧ skip.getD 0 = 0)) :
    fetch q max skip rows = fetch (trueFilter q) max skip rows := by
  have hf' : (trueFilter q).filter = some (fun _ => true) := rfl
  have hcont' : (trueFilter q).continued = none := hcont
  have hr' : (trueFilter q).reduce = none := hr
  have hmap' : (trueFilter q).map = q.map := rfl
  have hpdL : (q.filter.isNone && q.continued.isNone) = true := by
    simp [hf, hcont]
  have hpdR : ((trueFilter q).filter.isNone &&
      (trueFilter q).continued.isNone) = false := by
    simp [hf']
  cases max with
  | none =>
    simp only [fetch, hpdL, hpdR, Option.map_none', Option.map_some',
      Bool.false_eq_true, if_true, if_false, Option.isSome_none, hr, hr',
      ite_true, ite_false, id_eq]
    rw [fetchLoop_collect_all q hf hcont hr (rows.drop (skip.getD 0)) 0 (-1)
        [] (by norm_num),
      show (-1 : Int) = ((0 : Nat) : Int) - 1 from by norm_num,
      fetchLoop_truefilt_noend (trueFilter q) (fun _ => true) hf'
        (fun _ => rfl) hcont' hr' (skip.getD 0) rows 0 0 []]
    simp [hmap']
  | some m =>
    have hemax : 0 < skip.getD 0 + m := by
      rcases Nat.eq_zero_or_pos m with hm0 | hmpos
      · subst hm0
        have hne : skip.getD 0 ≠ 0 := fun h => hm ⟨rfl, h⟩
        omega
      · omega
    simp only [fetch, hpdL, hpdR, Option.map_none', Option.map_some',
      Bool.false_eq_true, if_true, if_false, Option.isSome_none, hr, hr',
      ite_true, ite_false, id_eq]
    rw [fetchLoop_collect_all q hf hcont hr
        ((rows.drop (skip.getD 0)).take (skip.getD 0 + m - skip.getD 0)) 0
        (-1) [] (by norm_num),
      show (-1 : Int) = ((0 : Nat) : Int) - 1 from by norm_num,
      fetchLoop_truefilt_end (trueFilter q) (fun _ => true) hf'
        (fun _ => rfl) hcont' hr' (skip.getD 0) (skip.getD 0 + m) rows 0 0 []
        hemax]
    rw [List.take_drop]
    simp only [hmap', Nat.sub_zero, Nat.add_sub_cancel_left, List.nil_append]

/-- Helper: the row loop never reads the query's `initial` stage. -/
theorem fetchLoop_seed_irrel {A B : Type} (q : FetchQuery A B)
    (g : Option (Unit → B)) (endO : Option Int) (startN : Int) :
    ∀ (rows : List A) (i : Nat) (idx : Int) (res : FetchResult A B),
      fetchLoop { q with initial := g } endO startN rows i idx res =
        fetchLoop q endO startN rows i idx res
  | [], _, _, _ => rfl
  | row :: rest, i, idx, res => by
    have hc : rowToContinue { q with initial := g } row = rowToContinue q row :=
      rfl
    have hi : nextIdx { q with initial := g } row idx = nextIdx q row idx := rfl
    have hres : nextRes { q with initial := g } startN row i idx res =
        nextRes q startN row i idx res := rfl
    simp only [fetchLoop, hc, hi, hres,
      fetchLoop_seed_irrel q g endO startN rest (i + 1)]

/-- Helper: `fetch` never reads the query's `initial` stage either. -/
theorem fetch_seed_irrel {A B : Type} (q : FetchQuery A B)
    (g : Option (Unit → B)) (max skip : Option Nat) (rows : List A) :
    fetch { q with initial := g } max skip rows = fetch q max skip rows := by
  simp only [fetch]
  rw [show ({ q with initial := g } : FetchQuery A B).filter = q.filter from rfl,
    show ({ q with initial := g } : FetchQuery A B).continued = q.continued from
      rfl,
    show ({ q with initial := g } : FetchQuery A B).reduce = q.reduce from rfl,
    fetchLoop_seed_irrel q g]

/-- Helper: in reduce mode with a filter, no continuation predicate and no
`end` bound, the row loop folds the filter-passing rows (after dropping the
first `start - k` of them) into the accumulator, handing `reduce` the raw
row position taken from the enumeration of the scanned rows. -/
theorem fetchLoop_reduce_noend {A B : Type} (q : FetchQuery A B)
    (r : Option B → A → Nat → B) (f : A → Bool) (hr : q.reduce = some r)
    (hf : q.filter = some f) (hcont : q.continued = none) (s : Nat) :
    ∀ (rows : List A) (i k : Nat) (acc : Option B),
      fetchLoop q none (s : Int) rows i ((k : Int) - 1)
          (FetchResult.reduced acc) =
        FetchResult.reduced
          ((((List.enumFrom i rows).filter (fun p => f p.2)).drop (s - k)).foldl
            (fun a p => some (r a (applyMap q.map p.2) p.1)) acc)
  | [], _, _, acc => by simp [fetchLoop]
  | row :: rest, i, k, acc => by
    have hcontT : rowToContinue q row = true := by simp [rowToContinue, hcont]
    have hkg : keepGoing none (rowToContinue q row)
        (nextIdx q row ((k : Int) - 1)) = true := by
      simp [keepGoing, hcontT]
    rw [fetchLoop, if_pos hkg, List.enumFrom_cons]
    cases hfr : f row with
    | false =>
      have hpass : rowPass q row = false := by simp [rowPass, hf, hfr]
      have hnext : nextIdx q row ((k : Int) - 1) = (k : Int) - 1 := by
        rw [nextIdx, if_neg (by rw [hpass]; exact Bool.false_ne_true)]
      have hres : nextRes q (s : Int) row i ((k : Int) - 1)
          (FetchResult.reduced acc) = FetchResult.reduced acc := by
        rw [nextRes, if_neg (by rw [hpass]; exact Bool.false_ne_true)]
      rw [hnext, hres,
        fetchLoop_reduce_noend q r f hr hf hcont s rest (i + 1) k acc]
      simp [hfr]
    | true =>
      have hpass : rowPass q row = true := by simp [rowPass, hf, hfr]
      have hnext : nextIdx q row ((k : Int) - 1) = (k : Int) := by
        rw [nextIdx, if_pos hpass]; omega
      rw [hnext]
      by_cases hsk : s ≤ k
      · have hge : (k : Int) ≥ (s : Int) := by omega
        have hres : nextRes q (s : Int) row i ((k : Int) - 1)
            (FetchResult.reduced acc) =
            FetchResult.reduced (some (r acc (applyMap q.map row) i)) := by
          rw [nextRes, if_pos hpass, hnext, if_pos hge]
          simp [fetchEmit, hr]
        rw [hres, show (k : Int) = ((k + 1 : Nat) : Int) - 1 from by
            push_cast; ring,
          fetchLoop_reduce_noend q r f hr hf hcont s rest (i + 1) (k + 1)
            (some (r acc (applyMap q.map row) i))]
        have hd1 : s - k = 0 := by omega
        have hd2 : s - (k + 1) = 0 := by omega
        simp [hfr, hd1, hd2]
      · have hlt : ¬ (k : Int) ≥ (s : Int) := by omega
        have hres : nextRes q (s : Int) row i ((k : Int) - 1)
            (FetchResult.reduced acc) = FetchResult.reduced acc := by
          rw [nextRes, if_pos hpass, hnext, if_neg hlt]
        rw [hres, show (k : Int) = ((k + 1 : Nat) : Int) - 1 from by
            push_cast; ring,
          fetchLoop_reduce_noend q r f hr hf hcont s rest (i + 1) (k + 1) acc]
        have hd : s - k = (s - (k + 1)) + 1 := by omega
        simp [hfr, hd]

/-- Helper: on the pushdown path in reduce mode (no filter, no continuation
predicate), the row loop with `start = 0` and no `end` folds every row in
order, handing `reduce` the position taken from the enumeration. -/
theorem fetchLoop_reduce_all {A B : Type} (q : FetchQuery A B)
    (r : Option B → A → Nat → B) (hf : q.filter = none)
    (hcont : q.continued = none) (hr : q.reduce = some r) :
    ∀ (rows : List A) (i : Nat) (idx : Int) (acc : Option B), -1 ≤ idx →
      fetchLoop q none 0 rows i idx (FetchResult.reduced acc) =
        FetchResult.reduced
          ((List.enumFrom i rows).foldl
            (fun a p => some (r a (applyMap q.map p.2) p.1)) acc)
  | [], _, _, acc, _ => by simp [fetchLoop]
  | row :: rest, i, idx, acc, hidx => by
    have hpass : rowPass q row = true := by simp [rowPass, hf]
    have hcontT : rowToContinue q row = true := by simp [rowToContinue, hcont]
    have hkg : keepGoing none (rowToContinue q row) (nextIdx q row idx) =
        true := by simp [keepGoing, hcontT]
    have hnext : nextIdx q row idx = idx + 1 := by simp [nextIdx, hpass]
    have hge : nextIdx q row idx ≥ (0 : Int) := by rw [hnext]; omega
    have hemit : nextRes q 0 row i idx (FetchResult.reduced acc) =
        FetchResult.reduced (some (r acc (applyMap q.map row) i)) := by
      rw [nextRes, if_pos hpass, if_pos hge]
      simp [fetchEmit, hr]
    rw [fetchLoop, if_pos hkg, hnext, hemit,
      fetchLoop_reduce_all q r hf hcont hr rest (i + 1) (idx + 1) _
        (by omega), List.enumFrom_cons]
    rfl

/-- Helper: on the post-filter path in reduce mode with a never-rejecting
filter, no continuation predicate, `start = 0` and `end = e > k`, the row
loop folds the first `e - k` rows in order with their raw enumeration
positions. -/
theorem fetchLoop_reduce_truefilt_end {A B : Type} (q : FetchQuery A B)
    (r : Option B → A → Nat → B) (f : A → Bool) (hf : q.filter = some f)
    (htrue : ∀ x, f x = true) (hcont : q.continued = none)
    (hr : q.reduce = some r) (e : Nat) :
    ∀ (rows : List A) (i k : Nat) (acc : Option B), k < e →
      fetchLoop q (some (e : Int)) 0 rows i ((k : Int) - 1)
          (FetchResult.reduced acc) =
        FetchResult.reduced
          ((List.enumFrom i (rows.take (e - k))).foldl
            (fun a p => some (r a (applyMap q.map p.2) p.1)) acc)
  | [], _, _, acc, _ => by simp [fetchLoop]
  | row :: rest, i, k, acc, hke => by
    have hpass : rowPass q row = true := by simp [rowPass, hf, htrue]
    have hcontT : rowToContinue q row = true := by simp [rowToContinue, hcont]
    have hnext : nextIdx q row ((k : Int) - 1) = (k : Int) := by
      rw [nextIdx, if_pos hpass]; omega
    have hge : nextIdx q row ((k : Int) - 1) ≥ (0 : Int) := by
      rw [hnext]; omega
    have hemit : nextRes q 0 row i ((k : Int) - 1)
        (FetchResult.reduced acc) =
        FetchResult.reduced (some (r acc (applyMap q.map row) i)) := by
      rw [nextRes, if_pos hpass, if_pos hge]
      simp [fetchEmit, hr]
    have htk : e - k = (e - (k + 1)) + 1 := by omega
    rw [fetchLoop, hnext, hemit, htk, List.take_succ_cons,
      List.enumFrom_cons]
    by_cases hstop : k + 1 < e
    · have hkg : keepGoing (some (e : Int)) (rowToContinue q row) (k : Int) =
          true := by
        simp only [keepGoing, hcontT, Bool.true_and, decide_eq_true_eq]
        omega
      rw [if_pos hkg, show (k : Int) = ((k + 1 : Nat) : Int) - 1 from by
          push_cast; ring,
        fetchLoop_reduce_truefilt_end q r f hf htrue hcont hr e rest (i + 1)
          (k + 1) _ hstop]
      rfl
    · have hkg : keepGoing (some (e : Int)) (rowToContinue q row) (k : Int) =
          false := by
        simp only [keepGoing, hcontT, Bool.true_and,
          decide_eq_false_iff_not]
        omega
      rw [if_neg (by rw [hkg]; exact Bool.false_ne_true)]
      have htk0 : e - (k + 1) = 0 := by omega
      rw [htk0, List.take_zero]
      rfl

/-- Helper: the reduce-mode, `skip = 0` case of the pushdown/post-filter
agreement: with no filter, no continuation predicate, a reduce function and
a zero/absent skip, the two paths fold the same rows with the same raw
positions, except in the excluded corner `max = 0`. -/
theorem fetch_pushdown_eq_postfilter_reduce {A B : Type} (q : FetchQuery A B)
    (r : Option B → A → Nat → B) (rows : List A) (max skip : Option Nat)
    (hf : q.filter = none) (hcont : q.continued = none)
    (hq : q.reduce = some r) (hs0 : skip.getD 0 = 0)
    (hm : ¬(max = some 0 ∧ skip.getD 0 = 0)) :
    fetch q max skip rows = fetch (trueFilter q) max skip rows := by
  have hf' : (trueFilter q).filter = some (fun _ => true) := rfl
  have hcont' : (trueFilter q).continued = none := hcont
  have hr' : (trueFilter q).reduce = some r := hq
  have hmap' : (trueFilter q).map = q.map := rfl
  have hpdL : (q.filter.isNone && q.continued.isNone) = true := by
    simp [hf, hcont]
  have hpdR : ((trueFilter q).filter.isNone &&
      (trueFilter q).continued.isNone) = false := by
    simp [hf']
  cases max with
  | none =>
    simp only [fetch, hpdL, hpdR, Option.map_none', Option.map_some',
      Bool.false_eq_true, if_true, if_false, hq, hr', Option.isSome_some,
      ite_true, ite_false, id_eq, hs0, List.drop_zero]
    rw [fetchLoop_reduce_all q r hf hcont hq rows 0 (-1) none (by norm_num),
      show (-1 : Int) = ((0 : Nat) : Int) - 1 from by norm_num,
      fetchLoop_reduce_noend (trueFilter q) r (fun _ => true) hr' hf'
        hcont' 0 rows 0 0 none]
    simp [hmap']
  | some m =>
    have hm0 : 0 < m := by
      rcases Nat.eq_zero_or_pos m with h0 | hpos
      · exact absurd ⟨by rw [h0], hs0⟩ hm
      · exact hpos
    simp only [fetch, hpdL, hpdR, Option.map_none', Option.map_some',
      Bool.false_eq_true, if_true, if_false, hq, hr', Option.isSome_some,
      ite_true, ite_false, id_eq, hs0, List.drop_zero, Nat.zero_add,
      Nat.sub_zero, Nat.cast_zero]
    rw [fetchLoop_reduce_all q r hf hcont hq (rows.take m) 0 (-1) none
        (by norm_num),
      show (-1 : Int) = ((0 : Nat) : Int) - 1 from by norm_num,
      fetchLoop_reduce_truefilt_end (trueFilter q) r (fun _ => true) hf'
        (fun _ => rfl) hcont' hr' m rows 0 0 none hm0]
    simp [hmap']

/-- C5 amended: for every query carrying no filter and no continuation
predicate, the natively pushed-down OFFSET/LIMIT result is identical
element for element to the post-filter result with `filter = () => true`,
for every `max` and `skip` outside exactly the two corners the
counterexample exhibits: a reduce-mode query with `skip > 0` (the raw scan
index handed to `reduce` differs between the paths), and `max = 0` with
`skip` absent or 0 (the post-filter loop emits one element before testing
the bound while `LIMIT 0` returns none). -/
theorem c5_pushdown_eq_postfilter {A B : Type} (q : FetchQuery A B)
    (rows : List A) (max skip : Option Nat)
    (hf : q.filter = none) (hcont : q.continued = none)
    (hrs : q.reduce = none ∨ skip.getD 0 = 0)
    (hm : ¬(max = some 0 ∧ skip.getD 0 = 0)) :
    fetch q max skip rows = fetch (trueFilter q) max skip rows := by
  rcases hrs with hr | hs0
  · exact fetch_pushdown_eq_postfilter_coll q rows max skip hf hcont hr hm
  · cases hq : q.reduce with
    | none =>
      exact fetch_pushdown_eq_postfilter_coll q rows max skip hf hcont hq hm
    | some r =>
      exact fetch_pushdown_eq_postfilter_reduce q r rows max skip hf hcont
        hq hs0 hm

/-- C5 witness: the bare collection query with rows `[1,2,3,4,5,6]`,
`max = 2`, `skip = 1` agrees across the two paths, and so does the
reduce-mode index query with `skip = 0`, `max = 2`, rows `[10,20,30]`. -/
theorem c5_witness :
    qPlainColl.filter = none ∧ qPlainColl.continued = none ∧
    (qPlainColl.reduce = none ∨ (some 1 : Option Nat).getD 0 = 0) ∧
    ¬((some 2 : Option Nat) = some 0 ∧ (some 1 : Option Nat).getD 0 = 0) ∧
    fetch qPlainColl (some 2) (some 1) [1, 2, 3, 4, 5, 6] =
      fetch (trueFilter qPlainColl) (some 2) (some 1) [1, 2, 3, 4, 5, 6] ∧
    qReduceIdx.filter = none ∧ qReduceIdx.continued = none ∧
    (qReduceIdx.reduce = none ∨ (some 0 : Option Nat).getD 0 = 0) ∧
    ¬((some 2 : Option Nat) = some 0 ∧ (some 0 : Option Nat).getD 0 = 0) ∧
    fetch qReduceIdx (some 2) (some 0) [10, 20, 30] =
      fetch (trueFilter qReduceIdx) (some 2) (some 0) [10, 20, 30] :=
  ⟨rfl, rfl, Or.inl rfl, by decide,
    c5_pushdown_eq_postfilter qPlainColl [1, 2, 3, 4, 5, 6] (some 2)
      (some 1) rfl rfl (Or.inl rfl) (by decide),
    rfl, rfl, Or.inr rfl, by decide,
    c5_pushdown_eq_postfilter qReduceIdx [10, 20, 30] (some 2) (some 0)
      rfl rfl (Or.inr rfl) (by decide)⟩

/-- C9: in reduce mode (with a filter, no continuation predicate, no `max`),
`fetch` folds with an accumulator that starts as `none` (JavaScript
`undefined`) — the query's `initial` stage is never invoked, as the second
conjunct shows — and the index handed to `reduce` is the raw scan position
of the row in the full scanned list, which also numbers rows rejected by
the filter or consumed by `skip`. -/
theorem c9_reduce_seed_undefined_raw_index {A B : Type} (q : FetchQuery A B)
    (r : Option B → A → Nat → B) (f : A → Bool) (skip : Option Nat)
    (rows : List A) (g : Unit → B) (hr : q.reduce = some r)
    (hcont : q.continued = none) (hf : q.filter = some f) :
    fetch q none skip rows =
      FetchResult.reduced
        ((((rows.enum).filter (fun p => f p.2)).drop (skip.getD 0)).foldl
          (fun a p => some (r a (applyMap q.map p.2) p.1)) none) ∧
    fetch { q with initial := some g } none skip rows =
      fetch q none skip rows := by
  constructor
  · have hpd : (q.filter.isNone && q.continued.isNone) = false := by
      simp [hf]
    simp only [fetch, hpd, Option.map_none', Bool.false_eq_true, if_false,
      ite_false, hr, Option.isSome_some, ite_true]
    rw [show (-1 : Int) = ((0 : Nat) : Int) - 1 from by norm_num,
      fetchLoop_reduce_noend q r f hr hf hcont (skip.getD 0) rows 0 0 none,
      List.enum_eq_enumFrom]
    simp
  · exact fetch_seed_irrel q (some g) none skip rows

/-- C9 witness: rows `[2,3,4,5]`, odd filter, `skip = 1`: value 3 at raw
position 1 is consumed by skip, value 5 is folded with raw index 3 (the
rejected rows 2 and 4 still advanced the index), the fold starts from
`undefined`, and attaching an `initial` stage changes nothing. -/
theorem c9_witness :
    qReduceDemo.reduce = some reduceDemo ∧
    qReduceDemo.continued = none ∧
    qReduceDemo.filter = some filtOdd ∧
    fetch qReduceDemo none (some 1) [2, 3, 4, 5] =
      FetchResult.reduced
        (((([2, 3, 4, 5] : List Nat).enum.filter
            (fun p => filtOdd p.2)).drop 1).foldl
          (fun a p => some (reduceDemo a (applyMap qReduceDemo.map p.2) p.1))
          none) ∧
    fetch { qReduceDemo with initial := some (fun _ => 7) } none (some 1)
        [2, 3, 4, 5] =
      fetch qReduceDemo none (some 1) [2, 3, 4, 5] :=
  ⟨rfl, rfl, rfl,
    (c9_reduce_seed_undefined_raw_index qReduceDemo reduceDemo filtOdd
      (some 1) [2, 3, 4, 5] (fun _ => 7) rfl rfl rfl).1,
    (c9_reduce_seed_undefined_raw_index qReduceDemo reduceDemo filtOdd
      (some 1) [2, 3, 4, 5] (fun _ => 7) rfl rfl rfl).2⟩

/-- Helper: appending one completed item to `done` adds one to the ok-count
exactly when its outcome succeeded. -/
theorem cntOk_append_one {V E : Type} (out : Nat → Except E V)
    (done : List Nat) (i : Nat) :
    cntOk out (done ++ [i]) =
      cntOk out done + (if (out i).toOption.isSome then 1 else 0) := by
  unfold cntOk
  rw [List.filter_append, List.length_append]
  cases h : (out i).toOption.isSome <;> simp [h]

/-- Helper: a failed completion leaves the positional result array
unchanged. -/
theorem okMask_append_err {V E : Type} (out : Nat → Except E V)
    (done : List Nat) (n i : Nat) (hi : (out i).toOption = none) :
    okMask out (done ++ [i]) n = okMask out done n := by
  unfold okMask
  refine List.map_congr_left (fun j _ => ?_)
  by_cases hjd : j ∈ done
  · simp [hjd]
  · by_cases hji : j = i
    · subst hji
      simp [hjd, hi]
    · simp [hjd, hji]

/-- Helper: a successful completion writes its value into its fixed slot of
the positional result array. -/
theorem okMask_set_ok {V E : Type} (out : Nat → Except E V)
    (done : List Nat) (n i : Nat) (v : V) (hi : i < n)
    (hv : (out i).toOption = some v) :
    (okMask out done n).set i (some v) = okMask out (done ++ [i]) n := by
  unfold okMask
  refine List.ext_getElem (by simp) (fun j hj1 hj2 => ?_)
  by_cases hji : j = i
  · subst hji
    rw [List.getElem_set_self]
    simp [hv]
  · rw [List.getElem_set_ne (fun h => hji h.symm)]
    simp only [List.getElem_map, List.getElem_range]
    by_cases hjd : j ∈ done <;> simp [hjd, hji]

/-- Helper: when `done` is duplicate-free with members below `n` and `n` of
its items completed successfully, every index below `n` is in `done` and
succeeded. -/
theorem cntOk_full_cover {V E : Type} (out : Nat → Except E V)
    (done : List Nat) (n : Nat) (hnd : done.Nodup)
    (hb : ∀ i ∈ done, i < n) (hfull : cntOk out done = n) :
    ∀ j, j < n → j ∈ done ∧ (out j).toOption.isSome = true := by
  have hsub : (done.filter (fun i => (out i).toOption.isSome)) ⊆
      List.range n := by
    intro j hj
    rw [List.mem_range]
    exact hb j (List.mem_of_mem_filter hj)
  have hnd' : (done.filter (fun i => (out i).toOption.isSome)).Nodup :=
    List.Nodup.filter _ hnd
  have hperm : (done.filter (fun i => (out i).toOption.isSome)).Perm
      (List.range n) :=
    (hnd'.subperm hsub).perm_of_length_le (by
      have : cntOk out done = n := hfull
      unfold cntOk at this
      simp [this])
  intro j hjn
  have hjf : j ∈ done.filter (fun i => (out i).toOption.isSome) :=
    hperm.mem_iff.mpr (List.mem_range.mpr hjn)
  exact ⟨List.mem_of_mem_filter hjf, (List.mem_filter.mp hjf).2⟩

/-- Helper: every resolution is a success or a failure, so the number of
events splits into successes plus failures. -/
theorem events_length_split {V E : Type} (ev : List (BatchEvent V E)) :
    ev.length =
      ev.countP isSuccessEv + (ev.filterMap failurePayload).length := by
  induction ev with
  | nil => rfl
  | cons e rest ih =>
    cases e <;>
      simp [List.countP_cons, isSuccessEv, failurePayload, ih] <;> omega

/-- Helper: master invariant of the batch completion machine.  Processing
any suffix `σ` of pairwise-distinct, in-range completions from a state
whose fields reflect the already-processed set `done` yields the state for
`done ++ σ`. -/
theorem runBatch_invariant {V E : Type} (n W : Nat)
    (out : Nat → Except E V) :
    ∀ (σ done : List Nat) (e0 : List (BatchEvent V E)) (iss : List Nat),
      (done ++ σ).Nodup → (∀ i ∈ done ++ σ, i < n) →
      batchEventsOk n out done e0 →
      (runBatch n W
          { count := cntOk out done, results := okMask out done n,
            events := e0, issued := iss }
          (σ.map (fun i => (i, out i)))).count = cntOk out (done ++ σ) ∧
      (runBatch n W
          { count := cntOk out done, results := okMask out done n,
            events := e0, issued := iss }
          (σ.map (fun i => (i, out i)))).results =
        okMask out (done ++ σ) n ∧
      batchEventsOk n out (done ++ σ)
        (runBatch n W
          { count := cntOk out done, results := okMask out done n,
            events := e0, issued := iss }
          (σ.map (fun i => (i, out i)))).events
  | [], done, e0, iss, hnd, hb, hev => by
    rw [List.append_nil]
    exact ⟨rfl, rfl, hev⟩
  | i :: σ', done, e0, iss, hnd, hb, hev => by
    obtain ⟨hevc, hevp, hevf⟩ := hev
    have hnd1 : (i :: (done ++ σ')).Nodup := List.nodup_middle.mp hnd
    have hidone : i ∉ done := fun h =>
      (List.nodup_cons.mp hnd1).1 (List.mem_append_left _ h)
    have hin : i < n := hb i (by simp)
    have hnd' : ((done ++ [i]) ++ σ').Nodup := by
      rw [List.append_assoc, List.singleton_append]
      exact hnd
    have hb' : ∀ j ∈ (done ++ [i]) ++ σ', j < n := by
      rw [List.append_assoc, List.singleton_append]
      exact hb
    have hgoal_list : (done ++ [i]) ++ σ' = done ++ i :: σ' := by
      rw [List.append_assoc, List.singleton_append]
    have hstep : runBatch n W
        { count := cntOk out done, results := okMask out done n,
          events := e0, issued := iss }
        (((i :: σ').map (fun j => (j, out j)))) =
        runBatch n W
          (completeOne n W
            { count := cntOk out done, results := okMask out done n,
              events := e0, issued := iss } (i, out i))
          (σ'.map (fun j => (j, out j))) := rfl
    rw [← hgoal_list]
    cases hout : out i with
    | error e =>
      have htoe : (out i).toOption = none := by rw [hout]; rfl
      have hcnt' : cntOk out (done ++ [i]) = cntOk out done := by
        rw [cntOk_append_one, htoe]
        simp
      have hmask' : okMask out (done ++ [i]) n = okMask out done n :=
        okMask_append_err out done n i htoe
      have hcomp : completeOne n W
          { count := cntOk out done, results := okMask out done n,
            events := e0, issued := iss } (i, out i) =
          { count := cntOk out (done ++ [i]),
            results := okMask out (done ++ [i]) n,
            events := e0 ++ [BatchEvent.failure e], issued := iss } := by
        rw [hcnt', hmask']
        simp [completeOne, hout]
      rw [hstep, hcomp]
      refine runBatch_invariant n W out σ' (done ++ [i]) _ iss hnd' hb'
        ⟨?_, ?_, ?_⟩
      · rw [hcnt']
        simpa [List.countP_append, isSuccessEv] using hevc
      · intro arr harr
        rcases List.mem_append.mp harr with h | h
        · exact hevp arr h
        · simp at h
      · rw [List.filterMap_append, List.filterMap_append, hevf]
        simp [failurePayload, errOf, hout]
    | ok v =>
      have htoe : (out i).toOption = some v := by rw [hout]; rfl
      have hcnt' : cntOk out (done ++ [i]) = cntOk out done + 1 := by
        rw [cntOk_append_one, htoe]
        simp
      have hmask' : (okMask out done n).set i (some v) =
          okMask out (done ++ [i]) n :=
        okMask_set_ok out done n i v hin htoe
      have hnddone : done.Nodup :=
        (List.sublist_append_left done σ').nodup
          (List.nodup_cons.mp hnd1).2
      have hdone_ne : cntOk out done ≠ n := by
        intro hfull
        exact hidone ((cntOk_full_cover out done n hnddone
          (fun j hj => hb j (List.mem_append_left _ hj)) hfull i hin).1)
      by_cases hfin : cntOk out done + 1 = n
      · have hcomp : completeOne n W
            { count := cntOk out done, results := okMask out done n,
              events := e0, issued := iss } (i, out i) =
            { count := cntOk out (done ++ [i]),
              results := okMask out (done ++ [i]) n,
              events := e0 ++ [BatchEvent.success (okMask out (done ++ [i]) n)],
              issued := iss } := by
          simp only [completeOne, hout, hmask', hcnt', hfin, if_pos]
        have hnd'' : (done ++ [i]).Nodup :=
          (List.sublist_append_left (done ++ [i]) σ').nodup hnd'
        have hb'' : ∀ j ∈ done ++ [i], j < n := fun j hj =>
          hb' j (List.mem_append_left _ hj)
        have hcover := cntOk_full_cover out (done ++ [i]) n hnd'' hb''
          (by rw [hcnt']; exact hfin)
        have hσnil : σ' = [] := by
          cases hσ : σ' with
          | nil => rfl
          | cons j σ'' =>
            exfalso
            subst hσ
            have hjn : j < n := hb j (by simp)
            have hjdone : j ∈ done ++ [i] := (hcover j hjn).1
            have hnd2 : (j :: (done ++ σ'')).Nodup := by
              have h1 := (List.nodup_cons.mp hnd1).2
              exact List.nodup_middle.mp h1
            have hji : j ≠ i := by
              intro h
              exact (List.nodup_cons.mp hnd1).1 (by simp [h])
            rcases List.mem_append.mp hjdone with h | h
            · exact (List.nodup_cons.mp hnd2).1 (List.mem_append_left _ h)
            · simp at h
              exact hji h
        subst hσnil
        rw [hstep, hcomp, List.append_nil]
        simp only [List.map_nil, runBatch, List.foldl_nil]
        refine ⟨trivial, trivial, ?_, ?_, ?_⟩
        · rw [hcnt']
          simp only [hfin, if_pos, List.countP_append]
          rw [if_neg hdone_ne] at hevc
          rw [hevc]
          simp [isSuccessEv]
        · intro arr harr
          have hzero : e0.countP isSuccessEv = 0 := by
            rw [hevc, if_neg hdone_ne]
          rcases List.mem_append.mp harr with h | h
          · exfalso
            have := List.countP_eq_zero.mp hzero _ h
            simp [isSuccessEv] at this
          · simp only [List.mem_singleton] at h
            have harr' : arr = okMask out (done ++ [i]) n :=
              BatchEvent.success.inj h
            constructor
            · intro j hj
              exact (hcover j hj).2
            · rw [harr']
              unfold okMask
              exact List.map_congr_left (fun j hj => by
                rw [if_pos (hcover j (List.mem_range.mp hj)).1])
        · rw [List.filterMap_append, hevf]
          simp [failurePayload, errOf, hout]
      · have hcomp : completeOne n W
            { count := cntOk out done, results := okMask out done n,
              events := e0, issued := iss } (i, out i) =
            { count := cntOk out (done ++ [i]),
              results := okMask out (done ++ [i]) n, events := e0,
              issued := if i + W < n then iss ++ [i + W] else iss } := by
          simp only [completeOne, hout, hmask', hcnt', hfin, if_neg,
            not_false_iff]
        rw [hstep, hcomp]
        refine runBatch_invariant n W out σ' (done ++ [i]) e0 _ hnd' hb'
          ⟨?_, hevp, ?_⟩
        · rw [hcnt', if_neg hfin, hevc, if_neg hdone_ne]
        · rw [hevf, List.filterMap_append]
          simp [errOf, hout]

/-- Helper: the result array after no completions is all-`none`. -/
theorem okMask_nil {V E : Type} (out : Nat → Except E V) (n : Nat) :
    okMask out [] n = List.replicate n none := by
  unfold okMask
  have h : (List.range n).map
      (fun j => if j ∈ ([] : List Nat) then (out j).toOption else none) =
      (List.range n).map (fun _ => (none : Option V)) :=
    List.map_congr_left (fun j _ => by simp)
  rw [h, List.map_const']
  simp

/-- Helper: the freshly initialised batch state, written with the invariant
vocabulary (`done = []`). -/
theorem initBatch_eq {V E : Type} (n W : Nat) (out : Nat → Except E V) :
    initBatch V E n W =
      { count := cntOk out [], results := okMask out [] n,
        events := if n = 0 then [BatchEvent.success []] else [],
        issued := List.range (min W n) } := by
  unfold initBatch
  rw [okMask_nil]
  rfl

/-- Helper: the freshly initialised batch state satisfies the event
invariant for `done = []`. -/
theorem initBatch_eventsOk {V E : Type} (n W : Nat)
    (out : Nat → Except E V) :
    batchEventsOk n out []
      ((if n = 0 then [BatchEvent.success []] else []) :
        List (BatchEvent V E)) := by
  cases n with
  | zero =>
    refine ⟨by simp [cntOk, isSuccessEv], ?_, by simp [failurePayload]⟩
    intro arr harr
    simp only [if_pos, List.mem_singleton] at harr
    have harr' := BatchEvent.success.inj harr
    exact ⟨fun j hj => absurd hj (Nat.not_lt_zero j), by simp [harr']⟩
  | succ m =>
    refine ⟨by simp [cntOk], ?_, by simp⟩
    intro arr harr
    simp at harr

/-- C6 amended, main theorem: for any batch run (window `W`, `n` items)
driven by pairwise-distinct in-range native completions with outcomes
`out`, (1) `df.callback` fires at most once; (2) any success carries the
complete positional array of a batch in which every item succeeded — never
a partial array; (3) `df.errback` fires exactly once per failed completion,
in arrival order (so the first error is delivered first, but a second
failing item fires `errback` again — only the deferred's own
single-resolution guard stops a second delivery); (4) success and failure
resolutions are mutually exclusive. -/
theorem c6_batch_resolution {V E : Type} (n W : Nat)
    (out : Nat → Except E V) (σ : List Nat) (hσ : σ.Nodup)
    (hb : ∀ i ∈ σ, i < n) :
    ((runBatch n W (initBatch V E n W)
        (σ.map (fun i => (i, out i)))).events.countP isSuccessEv ≤ 1) ∧
    (∀ arr, BatchEvent.success arr ∈
        (runBatch n W (initBatch V E n W)
          (σ.map (fun i => (i, out i)))).events →
      (∀ j, j < n → (out j).toOption.isSome = true) ∧
      arr = (List.range n).map (fun j => (out j).toOption)) ∧
    ((runBatch n W (initBatch V E n W)
        (σ.map (fun i => (i, out i)))).events.filterMap failurePayload =
      σ.filterMap (fun i => errOf (out i))) ∧
    (∀ arr e, BatchEvent.success arr ∈
        (runBatch n W (initBatch V E n W)
          (σ.map (fun i => (i, out i)))).events →
      BatchEvent.failure e ∈
        (runBatch n W (initBatch V E n W)
          (σ.map (fun i => (i, out i)))).events → False) := by
  have hmaster := runBatch_invariant n W out σ [] _ (List.range (min W n))
    (by simpa using hσ) (by simpa using hb) (initBatch_eventsOk n W out)
  rw [← initBatch_eq n W out] at hmaster
  obtain ⟨_, _, hevc, hevp, hevf⟩ := hmaster
  simp only [List.nil_append] at hevc hevp hevf
  refine ⟨?_, hevp, hevf, ?_⟩
  · rw [hevc]
    split <;> omega
  · intro arr e hs hf
    have hall := (hevp arr hs).1
    have he : e ∈ (runBatch n W (initBatch V E n W)
        (σ.map (fun i => (i, out i)))).events.filterMap failurePayload := by
      rw [List.mem_filterMap]
      exact ⟨BatchEvent.failure e, hf, rfl⟩
    rw [hevf, List.mem_filterMap] at he
    obtain ⟨i, hiσ, hie⟩ := he
    have := hall i (hb i hiσ)
    cases hout : out i with
    | ok v => rw [hout] at hie; exact absurd hie (by simp [errOf])
    | error e' =>
      rw [hout] at this
      exact absurd this (by simp [Except.toOption])

/-- C6 counterexample: two items, both failing (both are in the initial
window since `RW_REQ_PER_TX = 2`, and a WebSQL statement error callback
that returns `undefined` lets the remaining statement run): the operation
fires `df.errback` twice — the deferred is not resolved exactly once. -/
theorem c6_two_errbacks :
    (runBatch 2 2 (initBatch Nat String 2 2)
        [(0, Except.error "a"), (1, Except.error "b")]).events =
      [BatchEvent.failure "a", BatchEvent.failure "b"] ∧
    ((runBatch 2 2 (initBatch Nat String 2 2)
        [(0, Except.error "a"), (1, Except.error "b")]).events.filterMap
      failurePayload).length = 2 := by
  exact ⟨rfl, rfl⟩

/-- C6 witness: three items, window 2, item 1 fails, completions arriving
in order 0, 1, 2: at most one success, any success would be complete,
errbacks are the errors in order, and success excludes failure. -/
theorem c6_witness :
    ([0, 1, 2] : List Nat).Nodup ∧ (∀ i ∈ ([0, 1, 2] : List Nat), i < 3) ∧
    ((runBatch 3 2 (initBatch Nat String 3 2)
        (([0, 1, 2] : List Nat).map (fun i => (i, outDemo i)))).events.countP
      isSuccessEv ≤ 1) ∧
    ((runBatch 3 2 (initBatch Nat String 3 2)
        (([0, 1, 2] : List Nat).map
          (fun i => (i, outDemo i)))).events.filterMap failurePayload =
      ([0, 1, 2] : List Nat).filterMap (fun i => errOf (outDemo i))) :=
  ⟨by decide, by decide,
    (c6_batch_resolution 3 2 outDemo [0, 1, 2] (by decide) (by decide)).1,
    (c6_batch_resolution 3 2 outDemo [0, 1, 2] (by decide)
      (by decide)).2.2.1⟩

/-- Helper: a batch whose completions all succeed, arriving in any order
covering all `n` items, resolves exactly once, with the full positional
array. -/
theorem runBatch_allOk_events (V E : Type) (n W : Nat) (f : Nat → V)
    (σ : List Nat) (hσ : σ.Perm (List.range n)) :
    (runBatch n W (initBatch V E n W)
        (σ.map (fun i => (i, (Except.ok (f i) : Except E V))))).events =
      [BatchEvent.success ((List.range n).map (fun i => some (f i)))] := by
  have hσnd : σ.Nodup := hσ.symm.nodup (List.nodup_range n)
  have hσb : ∀ i ∈ σ, i < n := fun i hi =>
    List.mem_range.mp (hσ.mem_iff.mp hi)
  have h := c6_batch_resolution n W (fun i => (Except.ok (f i) : Except E V))
    σ hσnd hσb
  obtain ⟨hle, hp, hff, _⟩ := h
  have hcnt : (runBatch n W (initBatch V E n W)
      (σ.map (fun i =>
        (i, (Except.ok (f i) : Except E V))))).events.countP isSuccessEv =
      1 := by
    have hmaster := runBatch_invariant n W
      (fun i => (Except.ok (f i) : Except E V)) σ [] _ (List.range (min W n))
      (by simpa using hσnd) (by simpa using hσb)
      (initBatch_eventsOk n W (fun i => (Except.ok (f i) : Except E V)))
    rw [← initBatch_eq n W (fun i => (Except.ok (f i) : Except E V))]
      at hmaster
    obtain ⟨_, _, hevc, _, _⟩ := hmaster
    simp only [List.nil_append] at hevc
    have hcok : cntOk (fun i => (Except.ok (f i) : Except E V)) σ = n := by
      unfold cntOk
      have hfc : σ.filter
          (fun i => ((fun i => (Except.ok (f i) : Except E V)) i).toOption.isSome) =
          σ.filter (fun _ => true) :=
        List.filter_congr (fun i _ => by simp [Except.toOption])
      rw [hfc, List.filter_true, hσ.length_eq, List.length_range]
    rw [hevc, if_pos hcok]
  have hfnil : (runBatch n W (initBatch V E n W)
      (σ.map (fun i =>
        (i, (Except.ok (f i) : Except E V))))).events.filterMap
      failurePayload = [] := by
    rw [hff]
    exact List.filterMap_eq_nil.mpr (fun i _ => by simp [errOf])
  have hlen := events_length_split (runBatch n W (initBatch V E n W)
      (σ.map (fun i => (i, (Except.ok (f i) : Except E V))))).events
  rw [hcnt, hfnil] at hlen
  simp only [List.length_nil] at hlen
  obtain ⟨ev, hev⟩ := List.length_eq_one.mp hlen
  rw [hev]
  cases ev with
  | failure e =>
    rw [hev] at hcnt
    simp [List.countP_cons, isSuccessEv] at hcnt
  | success arr =>
    have harr := hp arr (by rw [hev]; simp)
    rw [harr.2]
    rfl

/-- Helper: mapping over positions of a list through `getD` is mapping over
the list. -/
theorem range_map_getD {α β : Type} (l : List α) (d : α) (g : α → β) :
    (List.range l.length).map (fun i => g (l.getD i d)) = l.map g := by
  induction l with
  | nil => rfl
  | cons x xs ih =>
    rw [List.length_cons, List.range_succ_eq_map, List.map_cons,
      List.map_map, List.getD_cons_zero, List.map_cons]
    have hcomp : ((fun i => g ((x :: xs).getD i d)) ∘ Nat.succ) =
        (fun i => g (xs.getD i d)) :=
      funext (fun i => by simp [List.getD_cons_succ])
    rw [hcomp, ih]

/-- C7: for any id list and any arrival order of the native completions (a
permutation of all items), `getByIds` resolves with the array whose `i`-th
element is the looked-up row for `ids[i]` (`none` for a miss), preserving
request order; `putObjects` resolves with the keys in input order the same
way. -/
theorem c7_positional_order (V E K : Type) (db : List (Int × V))
    (ids : List Int) (keyOf : Nat → K) (nObjs : Nat) (σ τ : List Nat)
    (hσ : σ.Perm (List.range ids.length))
    (hτ : τ.Perm (List.range nObjs)) :
    (getByIdsRun E db ids
        (σ.map (fun i => (i, getByIdsOutcome E db ids i)))).events =
      [BatchEvent.success (ids.map (fun id => some (dbFind db id)))] ∧
    (putObjectsRun K E nObjs
        (τ.map (fun i => (i, (Except.ok (keyOf i) : Except E K))))).events =
      [BatchEvent.success
        ((List.range nObjs).map (fun i => some (keyOf i)))] := by
  constructor
  · have h := runBatch_allOk_events (Option V) E ids.length REQ_PER_TX
      (fun i => dbFind db (ids.getD i 0)) σ hσ
    unfold getByIdsRun
    unfold getByIdsOutcome
    rw [h, range_map_getD ids 0 (fun id => some (dbFind db id))]
  · exact runBatch_allOk_events K E nObjs RW_REQ_PER_TX keyOf τ hτ

/-- C7 witness: store rows with keys 1 and 3, `getByIds [5, 1, 3]` with
completions arriving out of submission order (2, 0, 1) resolves with
`[undefined, obj1, obj3]` in request order; `putObjects` over two items
completing in order (1, 0) resolves with the keys in input order. -/
theorem c7_witness :
    ([2, 0, 1] : List Nat).Perm (List.range ([5, 1, 3] : List Int).length) ∧
    ([1, 0] : List Nat).Perm (List.range 2) ∧
    (getByIdsRun String [((1 : Int), (10 : Nat)), (3, 30)] [5, 1, 3]
        (([2, 0, 1] : List Nat).map (fun i =>
          (i, getByIdsOutcome String [((1 : Int), (10 : Nat)), (3, 30)]
            [5, 1, 3] i)))).events =
      [BatchEvent.success [some none, some (some 10), some (some 30)]] ∧
    (putObjectsRun Nat String 2
        (([1, 0] : List Nat).map (fun i =>
          (i, (Except.ok (i * 100) : Except String Nat))))).events =
      [BatchEvent.success [some 0, some 100]] :=
  ⟨by decide, by decide,
    by
      have h := (c7_positional_order Nat String Nat
        [((1 : Int), (10 : Nat)), (3, 30)]
        [5, 1, 3] (fun i => i * 100) 2 [2, 0, 1] [1, 0] (by decide)
        (by decide)).1
      rw [h]
      rfl,
    by
      have h := (c7_positional_order Nat String Nat
        [((1 : Int), (10 : Nat)), (3, 30)]
        [5, 1, 3] (fun i => i * 100) 2 [2, 0, 1] [1, 0] (by decide)
        (by decide)).2
      rw [h]
      rfl⟩

/-- C10: called on an empty input, each batch operation resolves at once
with `[]` (a single success event already fired by the body) and issues no
native request at all (`issued = []`); `putObjects` and `getByIds` reach
this point whenever the store exists, `getByKeys` unconditionally. -/
theorem c10_empty_input_immediate {V E : Type} (schema : DatabaseSchema)
    (store_name : String) (h : (getStore schema store_name).isSome = true) :
    putObjectsStart V E schema store_name 0 =
      some (initBatch V E 0 RW_REQ_PER_TX) ∧
    getByIdsStart V E schema store_name 0 =
      some (initBatch V E 0 REQ_PER_TX) ∧
    getByKeysStart V E 0 = initBatch V E 0 REQ_PER_TX ∧
    (initBatch V E 0 RW_REQ_PER_TX).events = [BatchEvent.success []] ∧
    (initBatch V E 0 RW_REQ_PER_TX).issued = [] ∧
    (initBatch V E 0 REQ_PER_TX).events = [BatchEvent.success []] ∧
    (initBatch V E 0 REQ_PER_TX).issued = [] := by
  obtain ⟨st, hst⟩ := Option.isSome_iff_exists.mp h
  refine ⟨?_, ?_, rfl, rfl, rfl, rfl, rfl⟩
  · unfold putObjectsStart
    rw [hst]
  · unfold getByIdsStart
    rw [hst]

/-- C10 witness: the `users` schema, empty inputs. -/
theorem c10_witness :
    (getStore schemaUsers "users").isSome = true ∧
    (putObjectsStart Nat String schemaUsers "users" 0 =
      some (initBatch Nat String 0 RW_REQ_PER_TX) ∧
    getByIdsStart Nat String schemaUsers "users" 0 =
      some (initBatch Nat String 0 REQ_PER_TX) ∧
    getByKeysStart Nat String 0 = initBatch Nat String 0 REQ_PER_TX ∧
    (initBatch Nat String 0 RW_REQ_PER_TX).events =
      [BatchEvent.success []] ∧
    (initBatch Nat String 0 RW_REQ_PER_TX).issued = [] ∧
    (initBatch Nat String 0 REQ_PER_TX).events = [BatchEvent.success []] ∧
    (initBatch Nat String 0 REQ_PER_TX).issued = []) :=
  ⟨by decide,
    c10_empty_input_immediate schemaUsers "users" (by decide)⟩

/-- C4 counterexample: with an empty schema, `removeById` reaches
`store.getSQLKeyColumnName()` on an `undefined` store — a TypeError, not a
`NotFoundError`; `fetch` likewise; `count` issues the native call without
any check; `removeByStore` throws a plain `Error`.  So not every operation
raises `NotFoundError` for a missing store. -/
theorem c4_not_every_op_notfound :
    removeByIdPrologue [] "users" = PrologueOutcome.threwTypeError ∧
    removeByIdPrologue [] "users" ≠ PrologueOutcome.threwNotFoundError ∧
    fetchPrologue [] "users" = PrologueOutcome.threwTypeError ∧
    countPrologue [] "users" = PrologueOutcome.reachedNativeCall ∧
    removeByStorePrologue [] "users" =
      PrologueOutcome.threwGenericError := by
  decide

/-- C4 amended: for a store name absent from the schema, the guarded
operations (`putObject`, `putObjects`, `getById`, `getByIds`, `clearById`)
throw `NotFoundError` synchronously before any native call; but
`removeById` and `fetch` fail with a TypeError instead, `count` issues its
native call without consulting the schema, and `removeByStore` throws a
generic `Error`. -/
theorem c4_guarded_ops_notfound (schema : DatabaseSchema) (name : String)
    (h : getStore schema name = none) :
    putObjectPrologue schema name = PrologueOutcome.threwNotFoundError ∧
    putObjectsPrologue schema name = PrologueOutcome.threwNotFoundError ∧
    getByIdPrologue schema name = PrologueOutcome.threwNotFoundError ∧
    getByIdsPrologue schema name = PrologueOutcome.threwNotFoundError ∧
    clearByIdPrologue schema name = PrologueOutcome.threwNotFoundError ∧
    removeByIdPrologue schema name = PrologueOutcome.threwTypeError ∧
    fetchPrologue schema name = PrologueOutcome.threwTypeError ∧
    countPrologue schema name = PrologueOutcome.reachedNativeCall ∧
    removeByStorePrologue schema name =
      PrologueOutcome.threwGenericError := by
  unfold putObjectPrologue putObjectsPrologue getByIdPrologue
    getByIdsPrologue clearByIdPrologue removeByIdPrologue fetchPrologue
    countPrologue removeByStorePrologue
  rw [h]
  exact ⟨rfl, rfl, rfl, rfl, rfl, rfl, rfl, rfl, rfl⟩

/-- C4 witness: the empty schema and store name `users`. -/
theorem c4_witness :
    getStore [] "users" = none ∧
    (putObjectPrologue [] "users" = PrologueOutcome.threwNotFoundError ∧
    putObjectsPrologue [] "users" = PrologueOutcome.threwNotFoundError ∧
    getByIdPrologue [] "users" = PrologueOutcome.threwNotFoundError ∧
    getByIdsPrologue [] "users" = PrologueOutcome.threwNotFoundError ∧
    clearByIdPrologue [] "users" = PrologueOutcome.threwNotFoundError ∧
    removeByIdPrologue [] "users" = PrologueOutcome.threwTypeError ∧
    fetchPrologue [] "users" = PrologueOutcome.threwTypeError ∧
    countPrologue [] "users" = PrologueOutcome.reachedNativeCall ∧
    removeByStorePrologue [] "users" =
      PrologueOutcome.threwGenericError) :=
  ⟨rfl, c4_guarded_ops_notfound [] "users" rfl⟩

/-- Helper: reading a field of a non-empty object. -/
theorem getField_cons (p : String × JsVal) (rest : Obj) (k : String) :
    getField (p :: rest) k = if p.1 == k then p.2 else getField rest k := by
  unfold getField
  rw [List.find?_cons]
  cases hp : (p.1 == k) <;> simp [hp]

/-- Helper: writing a field whose key is not the head's key. -/
theorem setField_cons_ne (p : String × JsVal) (rest : Obj) (k : String)
    (v : JsVal) (hp : (p.1 == k) = false) :
    setField (p :: rest) k v = p :: setField rest k v := by
  unfold setField
  rw [List.any_cons, hp]
  simp only [Bool.false_or]
  by_cases h : rest.any (fun q => q.1 == k) = true
  · rw [if_pos h, if_pos h, List.map_cons]
    simp [hp]
  · rw [if_neg h, if_neg h]
    rfl

/-- Helper: writing a field whose key matches the head's key. -/
theorem setField_cons_eq (p : String × JsVal) (rest : Obj) (k : String)
    (v : JsVal) (hp : (p.1 == k) = true) :
    setField (p :: rest) k v =
      (k, v) :: rest.map (fun q => if q.1 == k then (k, v) else q) := by
  unfold setField
  rw [List.any_cons, hp]
  have hp1 : p.1 = k := by simpa using hp
  simp [hp1]

/-- Helper: reading back the field just written. -/
theorem getField_setField_same (o : Obj) (k : String) (v : JsVal) :
    getField (setField o k v) k = v := by
  induction o with
  | nil => simp [setField, getField]
  | cons p rest ih =>
    by_cases hp : (p.1 == k) = true
    · rw [setField_cons_eq p rest k v hp, getField_cons]
      simp
    · rw [Bool.not_eq_true] at hp
      rw [setField_cons_ne p rest k v hp, getField_cons, hp]
      simp only [Bool.false_eq_true, if_false, ite_false]
      exact ih

/-- Helper: replacing the `k`-fields of an object does not change reads of
another key. -/
theorem getField_map_replace (rest : Obj) (k k' : String) (v : JsVal)
    (hk : k' ≠ k) :
    getField (rest.map (fun q => if q.1 == k then (k, v) else q)) k' =
      getField rest k' := by
  induction rest with
  | nil => rfl
  | cons q rest ih =>
    rw [List.map_cons]
    by_cases hq : (q.1 == k) = true
    · have hq1 : q.1 = k := by simpa using hq
      rw [if_pos hq, getField_cons, getField_cons]
      simp only [beq_iff_eq] at ih
      simp [hq1, Ne.symm hk, ih]
    · rw [Bool.not_eq_true] at hq
      rw [if_neg (by rw [hq]; exact Bool.false_ne_true), getField_cons,
        getField_cons]
      simp only [beq_iff_eq] at ih
      simp [ih]

/-- Helper: writing one field does not change reads of another. -/
theorem getField_setField_ne (o : Obj) (k k' : String) (v : JsVal)
    (hk : k' ≠ k) :
    getField (setField o k v) k' = getField o k' := by
  induction o with
  | nil =>
    unfold setField getField
    simp [List.find?_cons, Ne.symm hk]
  | cons p rest ih =>
    by_cases hp : (p.1 == k) = true
    · have hp1 : p.1 = k := by simpa using hp
      rw [setField_cons_eq p rest k v hp, getField_cons, getField_cons,
        getField_map_replace rest k k' v hk]
      simp [hp1, Ne.symm hk]
    · rw [Bool.not_eq_true] at hp
      rw [setField_cons_ne p rest k v hp, getField_cons, getField_cons]
      simp [ih]

/-- Helper: one step of the index loop leaves all other fields alone. -/
theorem parseRowStep_other (row : NativeRow) (v : Obj) (idx : IndexSchema)
    (fname : String) (hne : fname ≠ idx.name) :
    getField (parseRowStep row v idx) fname = getField v fname := by
  unfold parseRowStep
  by_cases hb : (idx.name == DEFAULT_BLOB_COLUMN) = true
  · rw [if_pos hb]
  · rw [if_neg hb]
    cases hx : getCell row idx.name with
    | undef => rfl
    | str s => exact getField_setField_ne v idx.name fname _ hne
    | num n => exact getField_setField_ne v idx.name fname _ hne
    | nan => exact getField_setField_ne v idx.name fname _ hne

/-- Helper: the index loop leaves fields outside its index names alone. -/
theorem foldl_parseRowStep_other (row : NativeRow) :
    ∀ (idxs : List IndexSchema) (v : Obj) (fname : String),
      fname ∉ idxs.map IndexSchema.name →
      getField (idxs.foldl (parseRowStep row) v) fname = getField v fname
  | [], _, _, _ => rfl
  | idx :: rest, v, fname, hmem => by
    have h1 : fname ≠ idx.name := by
      intro h
      exact hmem (by simp [h])
    have h2 : fname ∉ rest.map IndexSchema.name := by
      intro h
      exact hmem (by simp [h])
    rw [List.foldl_cons,
      foldl_parseRowStep_other row rest (parseRowStep row v idx) fname h2,
      parseRowStep_other row v idx fname h1]

/-- C8: `parseRow` reinstates the primary key under the store's declared key
path, coerces each index-declared field present in the row to its declared
numeric type (`parseInt` for INTEGER, `parseFloat` for FLOAT, identity for
any other declaration — such fields pass through unchanged), and leaves all
other blob fields untouched. -/
theorem c8_parseRow_decodes (t : StoreSchema) (row : NativeRow)
    (hnd : (t.indexes.map IndexSchema.name).Nodup)
    (hkey : t.keyPath ∉ t.indexes.map IndexSchema.name) :
    getField (parseRow t row) t.keyPath = getCell row t.keyPath ∧
    (∀ idx ∈ t.indexes, idx.name ≠ DEFAULT_BLOB_COLUMN →
      getCell row idx.name ≠ JsVal.undef →
      getField (parseRow t row) idx.name =
        coerceByType idx.type (getCell row idx.name)) ∧
    (∀ fname, fname ∉ t.indexes.map IndexSchema.name →
      fname ≠ t.keyPath →
      getField (parseRow t row) fname = getField row.blob fname) := by
  refine ⟨?_, ?_, ?_⟩
  · unfold parseRow
    rw [foldl_parseRowStep_other row t.indexes _ t.keyPath hkey]
    exact getField_setField_same row.blob t.keyPath _
  · intro idx hmem hblob hdef
    obtain ⟨pre, post, hsplit⟩ := List.append_of_mem hmem
    have hpost : idx.name ∉ post.map IndexSchema.name := by
      have h1 : ((pre.map IndexSchema.name) ++
          (idx.name :: post.map IndexSchema.name)).Nodup := by
        rw [← List.map_cons, ← List.map_append, ← hsplit]
        exact hnd
      exact (List.nodup_cons.mp (List.Nodup.of_append_right h1)).1
    unfold parseRow
    rw [hsplit, List.foldl_append, List.foldl_cons,
      foldl_parseRowStep_other row post _ idx.name hpost]
    have hbeq : (idx.name == DEFAULT_BLOB_COLUMN) = false := by
      simp [BEq.beq]
      exact hblob
    unfold parseRowStep
    rw [if_neg (by rw [hbeq]; exact Bool.false_ne_true)]
    cases hx : getCell row idx.name with
    | undef => exact absurd hx hdef
    | str s => exact getField_setField_same _ idx.name _
    | num n => exact getField_setField_same _ idx.name _
    | nan => exact getField_setField_same _ idx.name _
  · intro fname hni hnk
    unfold parseRow
    rw [foldl_parseRowStep_other row t.indexes _ fname hni]
    exact getField_setField_ne row.blob t.keyPath fname _ hnk

/-- C8 witness: the `users` store and the row of `put` with `id` 1 and
string `age` `"30"`: the decoded object carries `id = 1` under the key path
and `age` coerced to the integer 30. -/
theorem c8_witness :
    (usersStore.indexes.map IndexSchema.name).Nodup ∧
    usersStore.keyPath ∉ usersStore.indexes.map IndexSchema.name ∧
    getField (parseRow usersStore rowDemo) usersStore.keyPath =
      getCell rowDemo usersStore.keyPath ∧
    getField (parseRow usersStore rowDemo) "age" =
      coerceByType (some DataType.integer) (getCell rowDemo "age") ∧
    getField (parseRow usersStore rowDemo) "id" = JsVal.num 1 ∧
    getField (parseRow usersStore rowDemo) "age" = JsVal.num 30 :=
  ⟨by decide, by decide,
    (c8_parseRow_decodes usersStore rowDemo (by decide) (by decide)).1,
    (c8_parseRow_decodes usersStore rowDemo (by decide) (by decide)).2.1
      { name := "age", type := some DataType.integer } (by decide)
      (by decide) (by decide),
    by decide, by decide⟩

end YdnDb
